import Mathlib

/-!
# Verification of the tea-house-election core

A shallow embedding of the repository's core logic, together with proofs
settling the specification claims about it.

Sources embedded:
* src/election.rs  — `Election`, `Ballot`, `tally`, `assign`, `run`,
  `reserve_office`, `add_candidate`, `vote`
* src/actions.rs   — `Action` tagged union and its serde encode/decode
* src/data.rs      — `persist_folder` and `GlobalData::persist`
* src/main.rs      — `VoteMap` (session store, `expire`), `Elections::latest`
  (migration + sweep), the `/election` setup command, `select_vote`,
  `stop_vote`

Modelling conventions:
* `String` keeps its Rust meaning; comparison, splitting, trimming and
  integer parsing are given explicit structural definitions over `.data`
  (Rust's `str` `Ord` is byte-lexicographic, which for UTF-8 agrees with
  lexicographic comparison of unicode scalar values, i.e. of `Char.toNat`).
* `BTreeMap`/`HashMap` are modelled as association lists with unique keys.
  A `BTreeMap` additionally keeps its keys strictly sorted, which matters
  where the code iterates it in order.
* Rust machine integers (`usize`, `i64` timestamps) are modelled as `Nat`
  (all quantities involved — counts, ranks, post-1970 timestamps — are
  non-negative and far from overflow).
* The f32 score `v as f32 / num_votes as f32` computed by `tally` is
  modelled exactly as the pair `(v, num_votes)` standing for the rational
  `v / num_votes`, with `none` standing for the NaN produced when
  `num_votes = 0`.  Score comparison is exact rational comparison by
  cross-multiplication.  f32 rounding can only collapse close scores into
  ties, and tie order is deliberately randomized by the shuffle, so no
  stated property depends on the rounding.
* The random `shuffle` before the sort is a permutation of the score list;
  every property stated here (membership of scores, the panic condition of
  the sort, totality, and the behaviour of `assign` on an arbitrary sorted
  list) is invariant under permuting that list, so the model works with
  the unshuffled list.
* Panics are modelled as explicit `error`/`panic` results; external I/O
  (Discord rendering, HTTP) is treated as the out-of-scope collaborator
  and elided, as the spec's scope section directs.
-/

/-! ## String primitives (byte-lexicographic order, split, trim, parse) -/

/-- Strict lexicographic order on character lists by unicode scalar value. -/
def charListLt : List Char → List Char → Bool
  | [], [] => false
  | [], _ :: _ => true
  | _ :: _, [] => false
  | c :: cs, d :: ds =>
    if c.toNat < d.toNat then true
    else if c.toNat = d.toNat then charListLt cs ds
    else false

/-- Rust `str` `Ord` (byte-lexicographic = scalar-value lexicographic). -/
def strLt (a b : String) : Bool := charListLt a.data b.data

/-- `a <= b` for strings, as Rust's total order: not `b < a`. -/
def strLe (a b : String) : Prop := strLt b a = false

instance : DecidableRel strLe := fun _ _ => inferInstanceAs (Decidable (_ = _))

/-- Split on a separator character; Rust `str::split(sep)` semantics
(`"".split(sep)` yields one empty item). -/
def splitCharGo (sep : Char) : List Char → List Char → List (List Char)
  | [], acc => [acc.reverse]
  | c :: cs, acc =>
    if c = sep then acc.reverse :: splitCharGo sep cs [] else splitCharGo sep cs (c :: acc)

/-- Rust `str::split(sep)` collected to a list. -/
def splitChar (sep : Char) (s : String) : List String :=
  (splitCharGo sep s.data []).map String.mk

/-- Rust `str::split_once(sep)`: split at the first occurrence only. -/
def splitOnceChar (sep : Char) (s : String) : Option (String × String) :=
  go s.data []
where
  go : List Char → List Char → Option (String × String)
  | [], _ => none
  | c :: cs, acc =>
    if c = sep then some (String.mk acc.reverse, String.mk cs) else go cs (c :: acc)

/-- ASCII whitespace test (model of Rust `char::is_whitespace` for the
characters that occur in command input). -/
def isWs (c : Char) : Bool := c = ' ' || c = '\t' || c = '\n' || c = '\r'

/-- Rust `str::trim`. -/
def trimStr (s : String) : String :=
  String.mk (((s.data.dropWhile isWs).reverse.dropWhile isWs).reverse)

/-- Decimal digit test. -/
def isDigitCh (c : Char) : Bool := 48 ≤ c.toNat && c.toNat ≤ 57

/-- Value of a digit list. -/
def digitsVal (l : List Char) : Nat := l.foldl (fun a c => a * 10 + (c.toNat - 48)) 0

/-- Rust `str::parse::<usize>()`: optional leading `+`, then one or more
digits (overflow is ignored: the menus only produce one-digit values). -/
def parseUsize (s : String) : Option Nat :=
  let l := match s.data with
    | '+' :: rest => rest
    | l => l
  if l.isEmpty then none else if l.all isDigitCh then some (digitsVal l) else none

/-! ## Association-list primitives (models of BTreeMap / HashMap) -/

/-- Map lookup: first entry with the given key (keys are unique). -/
def alookup {α β : Type} [DecidableEq α] (k : α) : List (α × β) → Option β
  | [] => none
  | p :: rest => if p.1 = k then some p.2 else alookup k rest

/-- Map removal (`remove`): drop the entry with the given key. -/
def aremove {α β : Type} [DecidableEq α] (k : α) : List (α × β) → List (α × β)
  | [] => []
  | p :: rest => if p.1 = k then aremove k rest else p :: aremove k rest

/-- Map update of an existing key in place. -/
def aupdate {α β : Type} [DecidableEq α] (k : α) (v : β) : List (α × β) → List (α × β)
  | [] => []
  | p :: rest => (if p.1 = k then (k, v) else p) :: aupdate k v rest

/-- `BTreeMap::insert` on a key-sorted association list over `String` keys:
insert in order, replacing an existing entry. -/
def btInsert {β : Type} (k : String) (v : β) : List (String × β) → List (String × β)
  | [] => [(k, v)]
  | (k', v') :: rest =>
    if strLt k k' then (k, v) :: (k', v') :: rest
    else if k = k' then (k, v) :: rest
    else (k', v') :: btInsert k v rest

/-- `*map.entry(k).or_default() += d` on an accumulator map (HashMap:
position of a fresh key is irrelevant, new entries are appended). -/
def addTo : List (String × Nat) → String → Nat → List (String × Nat)
  | [], k, d => [(k, d)]
  | (k', v) :: rest, k, d =>
    if k' = k then (k', v + d) :: rest else (k', v) :: addTo rest k d

/-! ## Data model (src/election.rs) -/

/-- Candidate name (unique key within one election). -/
abbrev Name := String

/-- Region name (groups candidates for quota purposes). -/
abbrev Region := String

/-- `serenity::UserId`. -/
abbrev UserId := Nat

/-- A voter's ballot: `BTreeMap<Name, usize>`; rank 0 is an explicit
abstention. -/
structure Ballot where
  votes : List (Name × Nat)
deriving Repr, DecidableEq

instance : Inhabited Ballot := ⟨⟨[]⟩⟩

/-- `Election` (src/election.rs). -/
structure Election where
  owner : UserId
  candidates : List (Name × Region)
  offices : Nat
  reserved_offices : List Region
  ballots : List (UserId × Ballot)
deriving Repr, DecidableEq

/-- `Election::new`. -/
def Election.new (owner : UserId) (offices : Nat) : Election :=
  { owner := owner, offices := offices, candidates := [], reserved_offices := [], ballots := [] }

/-- `Election::reserve_office`: returns the Rust `bool` along with the
(possibly unchanged) election. -/
def Election.reserve_office (e : Election) (region : Region) : Bool × Election :=
  if e.offices < e.reserved_offices.length + 1 then (false, e)
  else (true, { e with reserved_offices := e.reserved_offices ++ [region] })

/-- `Election::add_candidate`. -/
def Election.add_candidate (e : Election) (name : Name) (region : Region) : Election :=
  { e with candidates := btInsert name region e.candidates }

/-- `ballots.entry(user).or_default().votes.insert(name, rank)`. -/
def entryVote : List (UserId × Ballot) → UserId → Name → Nat → List (UserId × Ballot)
  | [], u, n, r => [(u, ⟨btInsert n r []⟩)]
  | (u', b) :: rest, u, n, r =>
    if u' = u then (u', ⟨btInsert n r b.votes⟩) :: rest
    else (u', b) :: entryVote rest u n r

/-- `Election::vote`. -/
def Election.voteFor (e : Election) (u : UserId) (n : Name) (rank : Nat) : Election :=
  { e with ballots := entryVote e.ballots u n rank }

/-! ## Tally (src/election.rs, `Election::tally`) -/

/-- All `(name, rank)` pairs of all ballots, in iteration order. -/
def Election.flatPairs (e : Election) : List (Name × Nat) :=
  (e.ballots.map (fun ub => ub.2.votes)).flatten

/-- The accumulation pattern of `tally`: for every `(name, rank)` pair run
`*map.entry(name).or_default() += f (name, rank)`. -/
def accumBy (f : Name × Nat → Nat) (l : List (Name × Nat)) : List (Name × Nat) :=
  l.foldl (fun m p => addTo m p.1 (f p)) []

/-- The `results` accumulator: `*results.entry(name).or_default() += rank`. -/
def Election.resultsMap (e : Election) : List (Name × Nat) :=
  accumBy (fun p => p.2) e.flatPairs

/-- The `votes` accumulator: counts entries with rank > 0 per name. -/
def Election.votesMap (e : Election) : List (Name × Nat) :=
  accumBy (fun p => if 0 < p.2 then 1 else 0) e.flatPairs

/-- A tally score: the exact value of `v as f32 / num_votes as f32`.
`some (v, c)` is the rational `v / c` with `c > 0`; `none` is the NaN
produced by `0 / 0` when a candidate has only rank-0 entries. -/
abbrev Score := Option (Nat × Nat)

/-- The score of one accumulator entry. -/
def scoreVal (numVotes v : Nat) : Score :=
  if numVotes = 0 then none else some (v, numVotes)

/-- The exact rational value of a (non-NaN) score pair. -/
def scoreQ (p : Nat × Nat) : ℚ := (p.1 : ℚ) / (p.2 : ℚ)

/-- The `(score, name)` list built by `tally` before the shuffle and sort.
The shuffle permutes it and the sort orders it by score; every property
proved below is invariant under that. -/
def Election.tallyScores (e : Election) : List (Score × Name) :=
  e.resultsMap.map (fun p => (scoreVal ((alookup p.1 e.votesMap).getD 0) p.2, p.1))

/-- `sort_by(|a, b| a.0.partial_cmp(&b.0).unwrap())` panics iff some score
is NaN and the list has at least two elements (every element takes part in
at least one comparison, and `partial_cmp` with NaN is `None`). -/
def Election.tallyPanics (e : Election) : Bool :=
  decide (2 ≤ e.tallyScores.length) && e.tallyScores.any (fun p => p.1.isNone)

/-- Exact comparison of two scores, as `partial_cmp` would order the f32
values; only ever used on non-NaN scores (`none` is ordered first so the
function is total). -/
def scoreLe (a b : Score × Name) : Prop :=
  match a.1, b.1 with
  | some p, some q => p.1 * q.2 ≤ q.1 * p.2
  | none, _ => True
  | some _, none => False

instance : DecidableRel scoreLe := fun a b => by
  unfold scoreLe
  exact match a.1, b.1 with
  | some _, some _ => inferInstanceAs (Decidable (_ ≤ _))
  | none, _ => inferInstanceAs (Decidable True)
  | some _, none => inferInstanceAs (Decidable False)

/-- `Election::tally` with the panic made explicit: the shuffled-and-sorted
score list, or the `partial_cmp(..).unwrap()` panic on a NaN score. -/
def Election.tallyChecked (e : Election) : Except String (List (Score × Name)) :=
  if e.tallyPanics then Except.error "panicked: partial_cmp returned None for a NaN score"
  else Except.ok (e.tallyScores.insertionSort scoreLe)

/-! ## Assignment (src/election.rs, `Election::assign`, `Election::run`) -/

/-- Outcome of `assign`: the `candidates.get(..).unwrap()` panic, the
`results.pop()?` early return (`None` = infeasible), or the sorted winner
list. -/
inductive AssignResult where
  | panic
  | infeasible
  | winners (ws : List Name)
deriving Repr, DecidableEq

/-- `reserved_offices.iter().position(|x| x == region)` followed by
`reserved_offices.remove(ix)`: remove the first occurrence, or `none` when
the region has no open reserved slot. -/
def removeFirst (region : Region) : List Region → Option (List Region)
  | [] => none
  | r :: rest =>
    if r = region then some rest else (removeFirst region rest).map (fun l => r :: l)

/-- The `while officers.len() < offices` loop of `assign`.  The score list
argument is in descending walk order (the Rust code pops from the tail of
the ascending list). -/
def assignGo (cands : List (Name × Region)) (offices : Nat) :
    List Region → Nat → List Name → List (Score × Name) → AssignResult
  | _, _, officers, [] =>
    if offices ≤ officers.length then .winners (officers.insertionSort strLe)
    else .infeasible
  | reserved, unreserved, officers, (_, c) :: rest =>
    if offices ≤ officers.length then .winners (officers.insertionSort strLe)
    else
      match alookup c cands with
      | none => .panic
      | some region =>
        match removeFirst region reserved with
        | some reservedLeft =>
          assignGo cands offices reservedLeft unreserved (officers ++ [c]) rest
        | none =>
          if 0 < unreserved then
            assignGo cands offices reserved (unreserved - 1) (officers ++ [c]) rest
          else assignGo cands offices reserved unreserved officers rest

/-- `Election::assign` on an ascending score list (`results.pop()` walks it
from the highest score downward, so the list is reversed first).
`unreserved = offices - reserved_offices.len()`. -/
def Election.assign (e : Election) (results : List (Score × Name)) : AssignResult :=
  assignGo e.candidates e.offices e.reserved_offices
    (e.offices - e.reserved_offices.length) [] results.reverse

/-- `Election::run`: tally then assign, with both panic sites explicit. -/
def Election.runModel (e : Election) : Except String (Option (List Name)) :=
  match e.tallyChecked with
  | .error m => .error m
  | .ok rs =>
    match e.assign rs with
    | .panic => .error "panicked: unwrap on None in assign"
    | .infeasible => .ok none
    | .winners ws => .ok (some ws)

/-- Elections constructible through the public mutators of
src/election.rs. -/
inductive Election.Reachable : Election → Prop
  | new (owner offices : Nat) : Reachable (Election.new owner offices)
  | reserve (e : Election) (r : Region) : Reachable e → Reachable (e.reserve_office r).2
  | addCand (e : Election) (n : Name) (r : Region) : Reachable e → Reachable (e.add_candidate n r)
  | vote (e : Election) (u : UserId) (n : Name) (k : Nat) : Reachable e → Reachable (e.voteFor u n k)

/-! ## Session store and versioned dataset (src/main.rs) -/

abbrev ElectionId := Nat

abbrev VoteId := Nat

/-- `VoteInProgress` (the vote session).  The field `pending_ballot` models
the source's partially built ballot field. -/
structure VoteInProgress where
  user : UserId
  token : String
  election : ElectionId
  election_message : Nat
  pending_ballot : Ballot
  expires_at : Int
deriving Repr, DecidableEq

/-- `ElectionMap`. -/
structure ElectionMap where
  next_election_id : ElectionId
  elections : List (ElectionId × Election)
deriving Repr, DecidableEq

/-- `VoteMap`. -/
structure VoteMap where
  next_vote_id : VoteId
  votes : List (VoteId × VoteInProgress)
deriving Repr, DecidableEq

/-- `V2Elections`. -/
structure V2Elections where
  elections : ElectionMap
  votes : VoteMap
deriving Repr, DecidableEq

/-- The versioned `Elections` enum. -/
inductive Elections where
  | V1 (next_election_id : ElectionId) (elections : List (ElectionId × Election))
      (next_vote_id : VoteId) (votes_in_progress : List (VoteId × VoteInProgress))
  | V2 (v2 : V2Elections)
deriving Repr, DecidableEq

/-- `VoteMap::expire`: keep exactly the sessions with `expires_at > now`. -/
def VoteMap.expire (now : Int) (vm : VoteMap) : VoteMap :=
  { vm with votes := vm.votes.filter (fun p => now < p.2.expires_at) }

/-- `Elections::latest`: migrate V1 data (counters and maps carried over
verbatim) and run the expiry sweep.  The V1 branch of the source rebuilds a
`V2Elections` and recurses once into the V2 branch; the recursion is
unrolled here. -/
def Elections.latest (now : Int) : Elections → V2Elections
  | .V1 neid els nvid vips =>
    { elections := { next_election_id := neid, elections := els },
      votes := VoteMap.expire now { next_vote_id := nvid, votes := vips } }
  | .V2 v2 => { v2 with votes := VoteMap.expire now v2.votes }

/-! ## The `/election` setup command (src/main.rs, `election`) -/

/-- The reservation loop: `reserve_office(office.trim())` for each
comma-separated item, failing with the too-many-reservations error as soon
as one is refused. -/
def reserveAll (e : Election) : List String → Option Election
  | [] => some e
  | r :: rest =>
    let step := e.reserve_office (trimStr r)
    if step.1 then reserveAll step.2 rest else none

/-- The candidate loop: `split_once(';')` each comma-separated item, failing
with the malformed-candidate error when there is no semicolon. -/
def addAllCandidates (e : Election) : List String → Option Election
  | [] => some e
  | c :: rest =>
    match splitOnceChar ';' c with
    | none => none
    | some (n, r) => addAllCandidates (e.add_candidate (trimStr n) (trimStr r)) rest

/-- The `/election` command body: validate and build the election, then
allocate the next id and insert it.  On a validation error nothing is
inserted and the id counter is untouched (the expiry sweep from `latest`
has already run either way).  Returns the updated dataset and the result
sent to the invoker. -/
def electionCmd (now : Int) (author : UserId) (offices : Nat)
    (reserved_offices candidates : String) (g : Elections) :
    Elections × Except String ElectionId :=
  let v2 := g.latest now
  match reserveAll (Election.new author offices) (splitChar ',' reserved_offices) with
  | none => (.V2 v2, .error "Too many office reservations")
  | some e1 =>
    match addAllCandidates e1 (splitChar ',' candidates) with
    | none => (.V2 v2, .error "Could not split candidate at semicolon")
    | some e2 =>
      let eid := v2.elections.next_election_id
      (.V2 { v2 with elections :=
               { next_election_id := eid + 1,
                 elections := v2.elections.elections ++ [(eid, e2)] } },
       .ok eid)

/-! ## The ranking interaction (src/main.rs, `select_vote`) -/

/-- The component-interaction payload relevant to `select_vote`: a string
select menu carrying the chosen values, or any other kind (a button). -/
inductive DataKind where
  | stringSelect (values : List String)
  | other
deriving Repr, DecidableEq

/-- `VoteActionType`. -/
inductive VoteActionType where
  | ConfirmInitiateVote
  | SelectVote
  | SkipVote
  | CancelVote
  | VoidBallot
deriving Repr, DecidableEq

/-- The candidate loop of `select_vote`: walk the candidate map in order;
at the first candidate absent from the session ballot record the vote
(`values[0].parse()?`, or rank 0 on skip); at the next absent candidate
stop and return it as the next prompt.  Returns the updated session ballot
and `some next` when the prompt was re-issued, `none` when the ballot is
complete (which makes the caller save it and destroy the session). -/
def selectGo (kind : DataKind) (ty : VoteActionType) :
    List (Name × Nat) → Bool → List (Name × Region) →
    Except String (List (Name × Nat) × Option Name)
  | ballot, _registered, [] => .ok (ballot, none)
  | ballot, registered, (name, _) :: rest =>
    if (alookup name ballot).isSome then selectGo kind ty ballot registered rest
    else if registered = false then
      match kind with
      | .stringSelect values =>
        match values.head? with
        | none => .error "panicked: index 0 out of bounds"
        | some v =>
          match parseUsize v with
          | none => .error "could not parse rank"
          | some rank => selectGo kind ty (btInsert name rank ballot) true rest
      | .other =>
        if ty = .SkipVote then selectGo kind ty (btInsert name 0 ballot) true rest
        else selectGo kind ty ballot true rest
    else .ok (ballot, some name)

/-- Scan the candidate set for the first name absent from a ballot (the
completion test the spec requires). -/
def firstAbsent (cands : List (Name × Region)) (ballot : List (Name × Nat)) : Option Name :=
  (cands.find? (fun p => (alookup p.1 ballot).isNone)).map (fun p => p.1)

/-! ## Voiding and cancelling (src/main.rs, `stop_vote`) -/

/-- `stop_vote` as a state transform (the Discord edits it performs are the
external collaborator and always succeed in this model).  Resolves the
session and its election after the sweep in `latest`; on `VoidBallot`
removes the acting user's ballot from that election; in both branches
removes the session. -/
def stopVote (now : Int) (g : Elections) (ty : VoteActionType) (vid : VoteId)
    (user : UserId) : Except String V2Elections :=
  let v2 := g.latest now
  match alookup vid v2.votes.votes with
  | none => .error "No vote in progress"
  | some vip =>
    match alookup vip.election v2.elections.elections with
    | none => .error "No election found for this message"
    | some el =>
      let elections' :=
        if ty = .VoidBallot then
          aupdate vip.election { el with ballots := aremove user el.ballots }
            v2.elections.elections
        else v2.elections.elections
      .ok { elections := { v2.elections with elections := elections' },
            votes := { v2.votes with votes := aremove vid v2.votes.votes } }

/-! ## Persistence and backup rotation (src/data.rs) -/

/-- The on-disk state touched by `persist`: the primary data file and the
four backup generation folders.  A folder is an association list from file
name to content, kept sorted by name (`read_dir` entries sorted by path). -/
structure DataFs where
  primary : Option String
  history : List (String × String)
  hourly : List (String × String)
  daily : List (String × String)
  monthly : List (String × String)
deriving Repr, DecidableEq

/-- `persist_folder`: if the source file does not exist, do nothing; else
copy it into the folder under `filename` (overwriting), then delete the
oldest files in path-sort order until at most `keep` remain. -/
def persist_folder (srcFile : Option String) (folder : List (String × String))
    (filename : String) (keep : Nat) : List (String × String) :=
  match srcFile with
  | none => folder
  | some content =>
    let folder' := btInsert filename content folder
    if keep < folder'.length then folder'.drop (folder'.length - keep) else folder'

/-- `usize::MAX`, the retention limit of the monthly generation. -/
def usizeMax : Nat := 2 ^ 64 - 1

/-- `GlobalData::persist` (success path): snapshot the current primary file
into `bku/history` (keep 20), overwrite the primary file with the new
serialized dataset, then copy the primary file into `bku/hourly` (keep 24),
`bku/daily` (keep 30) and `bku/monthly` (keep `usize::MAX`), with the
bucketed file names `base-<timestamp/divisor>.json`. -/
def DataFs.persist (fs : DataFs) (base : String) (now : Nat) (newData : String) : DataFs :=
  let history' := persist_folder fs.primary fs.history
    (base ++ "-" ++ toString now ++ ".json") 20
  let primary' := some newData
  let hourly' := persist_folder primary' fs.hourly
    (base ++ "-" ++ toString (now / 60 / 60) ++ ".json") 24
  let daily' := persist_folder primary' fs.daily
    (base ++ "-" ++ toString (now / 60 / 60 / 24) ++ ".json") 30
  let monthly' := persist_folder primary' fs.monthly
    (base ++ "-" ++ toString (now / 60 / 60 / 24 / 28) ++ ".json") usizeMax
  { primary := primary', history := history', hourly := hourly',
    daily := daily', monthly := monthly' }

/-! ## Action codec (src/actions.rs)

`Action::encode` is `serde_json::to_string`, `Action::decode` is
`serde_json::from_str`.  The derived serde implementations are embedded as
codecs on a JSON value tree; the printing/parsing of that tree to and from
the token string is the serde_json library (external to this repository)
and is a lossless bijection on the values produced here. -/

/-- JSON values (the fragment the action codec produces). -/
inductive Json where
  | num (n : Nat)
  | str (s : String)
  | obj (fields : List (String × Json))

/-- `ElectionActionType`. -/
inductive ElectionActionType where
  | InitiateVote
  | GetResult
deriving Repr, DecidableEq

/-- `ElectionAction`. -/
structure ElectionAction where
  election_id : ElectionId
  ty : ElectionActionType
deriving Repr, DecidableEq

/-- `VoteAction`. -/
structure VoteAction where
  vote_id : VoteId
  ty : VoteActionType
deriving Repr, DecidableEq

/-- `Action` (namespaced because Mathlib already has a root `Action`). -/
inductive Actions.Action where
  | Election (a : ElectionAction)
  | Vote (a : VoteAction)
deriving Repr, DecidableEq

/-- Serde serialization of a unit enum variant: the variant name string. -/
def encodeEATy : ElectionActionType → Json
  | .InitiateVote => .str "InitiateVote"
  | .GetResult => .str "GetResult"

/-- Serde serialization of a unit enum variant: the variant name string. -/
def encodeVATy : VoteActionType → Json
  | .ConfirmInitiateVote => .str "ConfirmInitiateVote"
  | .SelectVote => .str "SelectVote"
  | .SkipVote => .str "SkipVote"
  | .CancelVote => .str "CancelVote"
  | .VoidBallot => .str "VoidBallot"

/-- `Action::encode`: the externally tagged union with struct payloads;
newtype ids serialize as their inner number. -/
def Actions.Action.encode : Actions.Action → Json
  | .Election a =>
    .obj [("Election", .obj [("election_id", .num a.election_id), ("ty", encodeEATy a.ty)])]
  | .Vote a =>
    .obj [("Vote", .obj [("vote_id", .num a.vote_id), ("ty", encodeVATy a.ty)])]

/-- Derived deserializer for `ElectionActionType`. -/
def decodeEATy : Json → Option ElectionActionType
  | .str s =>
    if s = "InitiateVote" then some .InitiateVote
    else if s = "GetResult" then some .GetResult
    else none
  | _ => none

/-- Derived deserializer for `VoteActionType`. -/
def decodeVATy : Json → Option VoteActionType
  | .str s =>
    if s = "ConfirmInitiateVote" then some .ConfirmInitiateVote
    else if s = "SelectVote" then some .SelectVote
    else if s = "SkipVote" then some .SkipVote
    else if s = "CancelVote" then some .CancelVote
    else if s = "VoidBallot" then some .VoidBallot
    else none
  | _ => none

/-- Derived deserializer for `ElectionAction` (fields looked up by name). -/
def decodeElectionAction : Json → Option ElectionAction
  | .obj fields =>
    match alookup "election_id" fields, alookup "ty" fields with
    | some (.num n), some tyj => (decodeEATy tyj).map (fun ty => ⟨n, ty⟩)
    | _, _ => none
  | _ => none

/-- Derived deserializer for `VoteAction` (fields looked up by name). -/
def decodeVoteAction : Json → Option VoteAction
  | .obj fields =>
    match alookup "vote_id" fields, alookup "ty" fields with
    | some (.num n), some tyj => (decodeVATy tyj).map (fun ty => ⟨n, ty⟩)
    | _, _ => none
  | _ => none

/-- `Action::decode`: an externally tagged enum expects a one-entry map
with the variant name as the key. -/
def Actions.Action.decode : Json → Option Actions.Action
  | .obj [(tag, payload)] =>
    if tag = "Election" then (decodeElectionAction payload).map Actions.Action.Election
    else if tag = "Vote" then (decodeVoteAction payload).map Actions.Action.Vote
    else none
  | _ => none

/-! ## Order lemmas for the string order -/

lemma charListLt_irrefl : ∀ l, charListLt l l = false := by
  intro l
  induction l with
  | nil => rfl
  | cons c cs ih => simp [charListLt, ih]

lemma charListLt_asymm : ∀ x y, charListLt x y = true → charListLt y x = false := by
  intro x
  induction x with
  | nil =>
    intro y h
    cases y with
    | nil => simp [charListLt] at h
    | cons d ds => rfl
  | cons c cs ih =>
    intro y h
    cases y with
    | nil => simp [charListLt] at h
    | cons d ds =>
      simp only [charListLt] at h ⊢
      by_cases h1 : c.toNat < d.toNat
      · have h2 : ¬ d.toNat < c.toNat := by omega
        have h3 : ¬ d.toNat = c.toNat := by omega
        simp [h1, h2, h3]
      · by_cases h2 : c.toNat = d.toNat
        · have h3 : ¬ d.toNat < c.toNat := by omega
          have h4 : d.toNat = c.toNat := h2.symm
          rw [if_neg h1, if_pos h2] at h
          rw [if_neg h3, if_pos h4]
          exact ih ds h
        · simp [h1, h2] at h

lemma charListLt_trans :
    ∀ x y z, charListLt x y = true → charListLt y z = true → charListLt x z = true := by
  intro x
  induction x with
  | nil =>
    intro y z hxy hyz
    cases y with
    | nil => simp [charListLt] at hxy
    | cons d ds =>
      cases z with
      | nil => simp [charListLt] at hyz
      | cons e es => rfl
  | cons c cs ih =>
    intro y z hxy hyz
    cases y with
    | nil => simp [charListLt] at hxy
    | cons d ds =>
      cases z with
      | nil => simp [charListLt] at hyz
      | cons e es =>
        simp only [charListLt] at hxy hyz ⊢
        by_cases h1 : c.toNat < d.toNat <;> by_cases h2 : d.toNat < e.toNat
        · have : c.toNat < e.toNat := by omega
          simp [this]
        · by_cases h3 : d.toNat = e.toNat
          · have : c.toNat < e.toNat := by omega
            simp [this]
          · simp [h2, h3] at hyz
        · by_cases h3 : c.toNat = d.toNat
          · have : c.toNat < e.toNat := by omega
            simp [this]
          · simp [h1, h3] at hxy
        · by_cases h3 : c.toNat = d.toNat
          · by_cases h4 : d.toNat = e.toNat
            · have h5 : ¬ c.toNat < e.toNat := by omega
              have h6 : c.toNat = e.toNat := by omega
              rw [if_neg h1, if_pos h3] at hxy
              rw [if_neg h2, if_pos h4] at hyz
              rw [if_neg h5, if_pos h6]
              exact ih ds es hxy hyz
            · simp [h2, h4] at hyz
          · simp [h1, h3] at hxy

lemma charListLt_conn :
    ∀ x y, charListLt x y = false → charListLt y x = false → x = y := by
  intro x
  induction x with
  | nil =>
    intro y hxy _
    cases y with
    | nil => rfl
    | cons d ds => simp [charListLt] at hxy
  | cons c cs ih =>
    intro y hxy hyx
    cases y with
    | nil => simp [charListLt] at hyx
    | cons d ds =>
      simp only [charListLt] at hxy hyx
      by_cases h1 : c.toNat < d.toNat
      · simp [h1] at hxy
      · by_cases h2 : d.toNat < c.toNat
        · simp [h2] at hyx
        · have h3 : c.toNat = d.toNat := by omega
          have h4 : c = d := by
            apply Char.ext
            apply UInt32.ext
            unfold Char.toNat at h3
            omega
          subst h4
          simp only [Nat.lt_irrefl, if_false, if_true, h3] at hxy hyx
          rw [ih ds hxy hyx]

lemma strLt_asymm (a b : String) (h : strLt a b = true) : strLt b a = false :=
  charListLt_asymm _ _ h

lemma strLt_irrefl (a : String) : strLt a a = false := charListLt_irrefl _

lemma strLt_conn (a b : String) (hab : strLt a b = false) (hba : strLt b a = false) : a = b := by
  cases a with
  | mk da =>
    cases b with
    | mk db =>
      have : da = db := charListLt_conn da db hab hba
      rw [this]

instance : IsTrans String strLe where
  trans a b c hab hbc := by
    unfold strLe strLt at hab hbc ⊢
    by_cases hca : charListLt c.data a.data = true
    · by_cases hbc2 : charListLt b.data c.data = true
      · have hba := charListLt_trans _ _ _ hbc2 hca
        rw [hba] at hab
        exact absurd hab (by simp)
      · have hbc3 : charListLt b.data c.data = false := by
          cases hx : charListLt b.data c.data
          · rfl
          · exact absurd hx hbc2
        have : c.data = b.data := charListLt_conn _ _ hbc hbc3
        rw [this] at hca
        rw [hca] at hab
        exact absurd hab (by simp)
    · cases hx : charListLt c.data a.data
      · rfl
      · exact absurd hx hca

instance : IsTotal String strLe where
  total a b := by
    unfold strLe
    by_cases h : strLt b a = true
    · right
      exact strLt_asymm _ _ h
    · left
      cases hx : strLt b a
      · rfl
      · exact absurd hx h

/-! ## Association-list lemmas -/

lemma alookup_eq_none {α β : Type} [DecidableEq α] (k : α) :
    ∀ l : List (α × β), k ∉ l.map Prod.fst → alookup k l = none := by
  intro l
  induction l with
  | nil => intro _; rfl
  | cons q rest ih =>
    intro h
    simp only [List.map_cons, List.mem_cons] at h
    push_neg at h
    simp only [alookup]
    rw [if_neg (fun e => h.1 e.symm), ih h.2]

lemma mem_keys_of_alookup {α β : Type} [DecidableEq α] (k : α) :
    ∀ (l : List (α × β)) (v : β), alookup k l = some v → k ∈ l.map Prod.fst := by
  intro l
  induction l with
  | nil => intro v h; exact absurd h (by simp [alookup])
  | cons q rest ih =>
    intro v h
    simp only [alookup] at h
    by_cases hq : q.1 = k
    · simp [← hq]
    · rw [if_neg hq] at h
      simp [ih v h]

lemma alookup_of_mem_nodup {α β : Type} [DecidableEq α] (k : α) (v : β) :
    ∀ l : List (α × β), (l.map Prod.fst).Nodup → (k, v) ∈ l → alookup k l = some v := by
  intro l
  induction l with
  | nil => intro _ h; exact absurd h (by simp)
  | cons q rest ih =>
    intro hnd hm
    simp only [List.map_cons, List.nodup_cons] at hnd
    rcases List.mem_cons.mp hm with h | h
    · rw [← h]
      simp [alookup]
    · have hk : k ∈ rest.map Prod.fst := List.mem_map_of_mem Prod.fst h
      have hne : q.1 ≠ k := fun e => hnd.1 (e ▸ hk)
      simp only [alookup]
      rw [if_neg hne]
      exact ih hnd.2 h

lemma alookup_filter_of {α β : Type} [DecidableEq α] (p : α × β → Bool) :
    ∀ (l : List (α × β)) (k : α) (v : β),
      alookup k l = some v → p (k, v) = true → alookup k (l.filter p) = some v := by
  intro l
  induction l with
  | nil => intro k v h _; exact absurd h (by simp [alookup])
  | cons q rest ih =>
    intro k v h hp
    simp only [alookup] at h
    by_cases hq : q.1 = k
    · rw [if_pos hq] at h
      have hqv : q = (k, v) := by
        cases q
        simp only [Option.some.injEq] at h
        simp_all
      rw [List.filter_cons, hqv]
      simp only [hp, if_true]
      simp [alookup]
    · rw [if_neg hq] at h
      rw [List.filter_cons]
      by_cases hpq : p q = true
      · simp only [hpq, if_true]
        simp only [alookup]
        rw [if_neg hq]
        exact ih k v h hp
      · simp only [hpq, if_false]
        exact ih k v h hp

lemma alookup_filter_none {α β : Type} [DecidableEq α] (p : α × β → Bool) :
    ∀ (l : List (α × β)) (k : α) (v : β), (l.map Prod.fst).Nodup →
      alookup k l = some v → p (k, v) = false → alookup k (l.filter p) = none := by
  intro l
  induction l with
  | nil => intro k v _ h _; exact absurd h (by simp [alookup])
  | cons q rest ih =>
    intro k v hnd h hp
    simp only [List.map_cons, List.nodup_cons] at hnd
    simp only [alookup] at h
    by_cases hq : q.1 = k
    · rw [if_pos hq] at h
      have hqv : q = (k, v) := by
        cases q
        simp only [Option.some.injEq] at h
        simp_all
      rw [List.filter_cons, hqv]
      simp only [hp, if_false]
      apply alookup_eq_none
      intro hk
      apply hnd.1
      rw [hqv]
      have sub : (rest.filter p).map Prod.fst ⊆ rest.map Prod.fst :=
        List.map_subset _ (fun x hx => List.mem_of_mem_filter hx)
      exact sub hk
    · rw [if_neg hq] at h
      rw [List.filter_cons]
      by_cases hpq : p q = true
      · simp only [hpq, if_true]
        simp only [alookup]
        rw [if_neg hq]
        exact ih k v hnd.2 h hp
      · simp only [hpq, if_false]
        exact ih k v hnd.2 h hp

lemma alookup_filter_rev {α β : Type} [DecidableEq α] (p : α × β → Bool) :
    ∀ (l : List (α × β)) (k : α) (v : β), (l.map Prod.fst).Nodup →
      alookup k (l.filter p) = some v → alookup k l = some v ∧ p (k, v) = true := by
  intro l
  induction l with
  | nil => intro k v _ h; exact absurd h (by simp [alookup])
  | cons q rest ih =>
    intro k v hnd h
    simp only [List.map_cons, List.nodup_cons] at hnd
    rw [List.filter_cons] at h
    by_cases hpq : p q = true
    · simp only [hpq, if_true, alookup] at h
      by_cases hq : q.1 = k
      · rw [if_pos hq] at h
        have hqv : q = (k, v) := by
          cases q
          simp only [Option.some.injEq] at h
          simp_all
        constructor
        · simp only [alookup]
          rw [if_pos hq, hqv]
        · rw [← hqv]
          exact hpq
      · rw [if_neg hq] at h
        have := ih k v hnd.2 h
        exact ⟨by simp only [alookup]; rw [if_neg hq]; exact this.1, this.2⟩
    · simp only [hpq, if_false] at h
      have := ih k v hnd.2 h
      have hq : q.1 ≠ k := by
        intro e
        exact hnd.1 (e ▸ mem_keys_of_alookup k rest v this.1)
      exact ⟨by simp only [alookup]; rw [if_neg hq]; exact this.1, this.2⟩

lemma alookup_aremove_self {α β : Type} [DecidableEq α] (k : α) :
    ∀ l : List (α × β), alookup k (aremove k l) = none := by
  intro l
  induction l with
  | nil => rfl
  | cons q rest ih =>
    simp only [aremove]
    by_cases hq : q.1 = k
    · rw [if_pos hq]
      exact ih
    · rw [if_neg hq]
      simp only [alookup]
      rw [if_neg hq]
      exact ih

lemma alookup_aremove_ne {α β : Type} [DecidableEq α] (k k' : α) (h : k' ≠ k) :
    ∀ l : List (α × β), alookup k' (aremove k l) = alookup k' l := by
  intro l
  induction l with
  | nil => rfl
  | cons q rest ih =>
    simp only [aremove]
    by_cases hq : q.1 = k
    · rw [if_pos hq]
      have hq2 : q.1 ≠ k' := fun e => h (by rw [← e, hq])
      conv_rhs => simp only [alookup]
      rw [if_neg hq2]
      exact ih
    · rw [if_neg hq]
      simp only [alookup]
      by_cases hq2 : q.1 = k'
      · rw [if_pos hq2, if_pos hq2]
      · rw [if_neg hq2, if_neg hq2]
        exact ih

lemma alookup_aupdate_self {α β : Type} [DecidableEq α] (k : α) (v : β) :
    ∀ l : List (α × β), alookup k (aupdate k v l) = (alookup k l).map (fun _ => v) := by
  intro l
  induction l with
  | nil => rfl
  | cons q rest ih =>
    simp only [aupdate]
    by_cases hq : q.1 = k
    · rw [if_pos hq]
      simp [alookup, hq]
    · rw [if_neg hq]
      simp only [alookup]
      rw [if_neg hq, if_neg hq]
      exact ih

lemma alookup_aupdate_ne {α β : Type} [DecidableEq α] (k : α) (v : β) (k' : α) (h : k' ≠ k) :
    ∀ l : List (α × β), alookup k' (aupdate k v l) = alookup k' l := by
  intro l
  induction l with
  | nil => rfl
  | cons q rest ih =>
    simp only [aupdate]
    by_cases hq : q.1 = k
    · rw [if_pos hq]
      simp only [alookup]
      have h1 : (k, v).1 ≠ k' := fun e => h e.symm
      have h2 : q.1 ≠ k' := fun e => h (by rw [← e, hq])
      rw [if_neg h1, if_neg h2]
      exact ih
    · rw [if_neg hq]
      simp only [alookup]
      by_cases hq2 : q.1 = k'
      · rw [if_pos hq2, if_pos hq2]
      · rw [if_neg hq2, if_neg hq2]
        exact ih

lemma alookup_btInsert_self {β : Type} (k : String) (v : β) :
    ∀ l : List (String × β), alookup k (btInsert k v l) = some v := by
  intro l
  induction l with
  | nil => simp [btInsert, alookup]
  | cons q rest ih =>
    cases q with
    | mk k' v' =>
      simp only [btInsert]
      by_cases h1 : strLt k k' = true
      · rw [if_pos h1]
        simp [alookup]
      · rw [if_neg h1]
        by_cases h2 : k = k'
        · rw [if_pos h2]
          simp [alookup]
        · rw [if_neg h2]
          simp only [alookup]
          rw [if_neg (fun e => h2 e.symm)]
          exact ih

lemma alookup_btInsert_ne {β : Type} (k : String) (v : β) (k' : String) (h : k' ≠ k) :
    ∀ l : List (String × β), alookup k' (btInsert k v l) = alookup k' l := by
  intro l
  induction l with
  | nil =>
    simp only [btInsert, alookup]
    rw [if_neg (fun (e : k = k') => h e.symm)]
  | cons q rest ih =>
    cases q with
    | mk k2 v2 =>
      simp only [btInsert]
      by_cases h1 : strLt k k2 = true
      · rw [if_pos h1]
        simp only [alookup]
        rw [if_neg (fun (e : k = k') => h e.symm)]
      · rw [if_neg h1]
        by_cases h2 : k = k2
        · rw [if_pos h2]
          simp only [alookup]
          rw [if_neg (fun (e : k = k') => h e.symm), ← h2,
            if_neg (fun (e : k = k') => h e.symm)]
        · rw [if_neg h2]
          simp only [alookup]
          by_cases h3 : k2 = k'
          · rw [if_pos h3, if_pos h3]
          · rw [if_neg h3, if_neg h3]
            exact ih

lemma btInsert_length_le {β : Type} (k : String) (v : β) :
    ∀ l : List (String × β), (btInsert k v l).length ≤ l.length + 1 := by
  intro l
  induction l with
  | nil => simp [btInsert]
  | cons q rest ih =>
    cases q with
    | mk k2 v2 =>
      simp only [btInsert]
      by_cases h1 : strLt k k2 = true
      · rw [if_pos h1]
        simp
      · rw [if_neg h1]
        by_cases h2 : k = k2
        · rw [if_pos h2]
          simp
        · rw [if_neg h2]
          simp only [List.length_cons]
          omega

lemma addTo_lookup_self : ∀ (m : List (String × Nat)) (k : String) (d : Nat),
    alookup k (addTo m k d) = some ((alookup k m).getD 0 + d) := by
  intro m
  induction m with
  | nil => intro k d; simp [addTo, alookup]
  | cons q rest ih =>
    intro k d
    cases q with
    | mk k' v =>
      simp only [addTo]
      by_cases h : k' = k
      · rw [if_pos h]
        simp only [alookup]
        rw [if_pos h, if_pos h]
        rfl
      · rw [if_neg h]
        simp only [alookup]
        rw [if_neg h, if_neg h]
        exact ih k d

lemma addTo_lookup_ne : ∀ (m : List (String × Nat)) (k k' : String) (d : Nat), k' ≠ k →
    alookup k (addTo m k' d) = alookup k m := by
  intro m
  induction m with
  | nil =>
    intro k k' d h
    simp only [addTo, alookup]
    rw [if_neg h]
  | cons q rest ih =>
    intro k k' d h
    cases q with
    | mk k2 v =>
      simp only [addTo]
      by_cases h2 : k2 = k'
      · rw [if_pos h2]
        simp only [alookup]
        rw [h2, if_neg h, if_neg h]
      · rw [if_neg h2]
        simp only [alookup]
        by_cases h3 : k2 = k
        · rw [if_pos h3, if_pos h3]
        · rw [if_neg h3, if_neg h3]
          exact ih k k' d h

lemma addTo_keys : ∀ (m : List (String × Nat)) (k : String) (d : Nat),
    (addTo m k d).map Prod.fst =
      if k ∈ m.map Prod.fst then m.map Prod.fst else m.map Prod.fst ++ [k] := by
  intro m
  induction m with
  | nil => intro k d; simp [addTo]
  | cons q rest ih =>
    intro k d
    cases q with
    | mk k2 v =>
      simp only [addTo]
      by_cases h : k2 = k
      · rw [if_pos h]
        simp [h]
      · rw [if_neg h]
        simp only [List.map_cons, List.mem_cons]
        rw [ih k d]
        by_cases h2 : k ∈ rest.map Prod.fst
        · rw [if_pos h2, if_pos (Or.inr h2)]
        · have hnotin : ¬ (k = k2 ∨ k ∈ rest.map Prod.fst) := by
            rintro (e | e)
            · exact h e.symm
            · exact h2 e
          rw [if_neg h2, if_neg hnotin]
          simp

lemma addTo_keys_nodup : ∀ (m : List (String × Nat)) (k : String) (d : Nat),
    (m.map Prod.fst).Nodup → ((addTo m k d).map Prod.fst).Nodup := by
  intro m k d hnd
  rw [addTo_keys]
  by_cases h : k ∈ m.map Prod.fst
  · rw [if_pos h]
    exact hnd
  · rw [if_neg h]
    simp [List.nodup_append, hnd, h]

/-! ## C9: the expiry sweep -/

/-- C9: the expiry sweep removes from the vote-session store exactly the
sessions whose expiry timestamp is ≤ now: after a sweep, every session
with expiry ≤ now is absent, every session with expiry > now is still
present (with unchanged contents), and nothing else appears. -/
theorem c9_expire_sweep_exact (now : Int) (vm : VoteMap) (vid : VoteId) (s : VoteInProgress)
    (hnd : (vm.votes.map Prod.fst).Nodup) (hs : alookup vid vm.votes = some s) :
    (s.expires_at ≤ now → alookup vid (vm.expire now).votes = none) ∧
    (now < s.expires_at → alookup vid (vm.expire now).votes = some s) ∧
    (∀ s2 : VoteInProgress, alookup vid (vm.expire now).votes = some s2 →
      alookup vid vm.votes = some s2 ∧ now < s2.expires_at) := by
  unfold VoteMap.expire
  refine ⟨?_, ?_, ?_⟩
  · intro h
    apply alookup_filter_none _ _ _ _ hnd hs
    simp only [decide_eq_false_iff_not]
    omega
  · intro h
    apply alookup_filter_of _ _ _ _ hs
    simp [h]
  · intro s2 h2
    have := alookup_filter_rev _ _ _ _ hnd h2
    refine ⟨this.1, ?_⟩
    simpa using this.2

/-- Concrete sessions for the C9 witness. -/
def wSessA : VoteInProgress :=
  { user := 7, token := "t", election := 0, election_message := 5,
    pending_ballot := ⟨[]⟩, expires_at := 3 }

/-- Concrete sessions for the C9 witness. -/
def wSessB : VoteInProgress :=
  { user := 8, token := "u", election := 0, election_message := 5,
    pending_ballot := ⟨[("a", 2)]⟩, expires_at := 10 }

/-- Concrete store for the C9 witness. -/
def wVm : VoteMap := { next_vote_id := 2, votes := [(0, wSessA), (1, wSessB)] }

/-- Witness for C9 at a concrete store and `now = 5`: the session that
expired at 3 is swept away, the one expiring at 10 survives unchanged. -/
theorem c9_expire_sweep_exact_witness :
    (alookup 0 wVm.votes = some wSessA) ∧ (wSessA.expires_at ≤ (5:Int)) ∧
    (alookup 0 (wVm.expire 5).votes = none) ∧
    (alookup 1 (wVm.expire 5).votes = some wSessB) := by
  refine ⟨by decide, by decide, ?_, ?_⟩
  · exact (c9_expire_sweep_exact 5 wVm 0 wSessA (by decide) (by decide)).1 (by decide)
  · exact (c9_expire_sweep_exact 5 wVm 1 wSessB (by decide) (by decide)).2.1 (by decide)

/-! ## C8: `VoidBallot` and `CancelVote` -/

/-- The common success shape of `stop_vote`: with the session (surviving
the sweep) and its election both present, the result updates the election
map only in the `VoidBallot` branch and removes the session in both. -/
lemma stopVote_ok (now : Int) (v2 : V2Elections) (ty : VoteActionType) (vid : VoteId)
    (user : UserId) (vip : VoteInProgress) (el : Election)
    (hswept : alookup vid ((VoteMap.expire now v2.votes).votes) = some vip)
    (hel : alookup vip.election v2.elections.elections = some el) :
    stopVote now (.V2 v2) ty vid user = .ok
      { elections := { v2.elections with elections :=
          (if ty = .VoidBallot then
            aupdate vip.election { el with ballots := aremove user el.ballots }
              v2.elections.elections
          else v2.elections.elections) },
        votes := { VoteMap.expire now v2.votes with
          votes := aremove vid ((VoteMap.expire now v2.votes).votes) } } := by
  unfold stopVote
  simp only [Elections.latest]
  have hv : alookup vid ((VoteMap.expire now v2.votes).votes) = some vip := hswept
  rw [hv]
  dsimp only
  rw [hel]

/-- C8: `VoidBallot` removes the acting voter's ballot from the session's
election and destroys the session, independent of voting progress (the
pending ballot is arbitrary); `CancelVote` destroys the session and leaves
the election store — in particular the voter's existing ballot — entirely
unchanged.  Both are frame-exact: other ballots and other elections keep
their values. -/
theorem c8_void_cancel (now : Int) (v2 : V2Elections) (vid : VoteId) (user : UserId)
    (vip : VoteInProgress) (el : Election)
    (hvip : alookup vid v2.votes.votes = some vip)
    (hlive : now < vip.expires_at)
    (hel : alookup vip.election v2.elections.elections = some el) :
    (∃ v2', stopVote now (.V2 v2) .VoidBallot vid user = .ok v2' ∧
      (∃ el', alookup vip.election v2'.elections.elections = some el' ∧
        alookup user el'.ballots = none ∧
        (∀ u, u ≠ user → alookup u el'.ballots = alookup u el.ballots)) ∧
      (∀ eid, eid ≠ vip.election →
        alookup eid v2'.elections.elections = alookup eid v2.elections.elections) ∧
      alookup vid v2'.votes.votes = none) ∧
    (∃ v2', stopVote now (.V2 v2) .CancelVote vid user = .ok v2' ∧
      v2'.elections = v2.elections ∧
      alookup vid v2'.votes.votes = none) := by
  have hswept : alookup vid ((VoteMap.expire now v2.votes).votes) = some vip := by
    unfold VoteMap.expire
    exact alookup_filter_of _ _ _ _ hvip (by simp [hlive])
  constructor
  · refine ⟨_, stopVote_ok now v2 .VoidBallot vid user vip el hswept hel, ?_, ?_, ?_⟩
    · refine ⟨{ el with ballots := aremove user el.ballots }, ?_, ?_, ?_⟩
      · dsimp only
        rw [if_pos rfl, alookup_aupdate_self, hel]
        rfl
      · exact alookup_aremove_self user el.ballots
      · intro u hu
        exact alookup_aremove_ne user u hu el.ballots
    · intro eid hne
      dsimp only
      rw [if_pos rfl]
      exact alookup_aupdate_ne vip.election _ eid hne v2.elections.elections
    · exact alookup_aremove_self vid _
  · refine ⟨_, stopVote_ok now v2 .CancelVote vid user vip el hswept hel, ?_, ?_⟩
    · dsimp only
      rw [if_neg (by decide)]
    · exact alookup_aremove_self vid _

/-- Concrete session for the C8 witness: the voter already has a ballot
and the session carries an arbitrary half-finished pending ballot. -/
def wVip : VoteInProgress :=
  { user := 7, token := "t", election := 0, election_message := 5,
    pending_ballot := ⟨[("a", 4)]⟩, expires_at := 10 }

/-- Concrete election for the C8 witness: voter 7 has a recorded ballot. -/
def wEl : Election := (Election.new 9 1).voteFor 7 "a" 3

/-- Concrete dataset for the C8 witness. -/
def wV2 : V2Elections :=
  { elections := { next_election_id := 1, elections := [(0, wEl)] },
    votes := { next_vote_id := 1, votes := [(0, wVip)] } }

/-- Witness for C8 at a concrete dataset: cancelling keeps the election
store (hence voter 7's ballot) unchanged and removes the session; voiding
removes voter 7's ballot. -/
theorem c8_void_cancel_witness :
    (alookup 0 wV2.votes.votes = some wVip) ∧ ((0:Int) < wVip.expires_at) ∧
    (∃ v2', stopVote 0 (.V2 wV2) .CancelVote 0 7 = .ok v2' ∧
      v2'.elections = wV2.elections ∧ alookup 0 v2'.votes.votes = none) ∧
    (∃ v2', stopVote 0 (.V2 wV2) .VoidBallot 0 7 = .ok v2' ∧
      (∃ el', alookup wVip.election v2'.elections.elections = some el' ∧
        alookup 7 el'.ballots = none ∧
        (∀ u, u ≠ 7 → alookup u el'.ballots = alookup u wEl.ballots)) ∧
      (∀ eid, eid ≠ wVip.election →
        alookup eid v2'.elections.elections = alookup eid wV2.elections.elections) ∧
      alookup 0 v2'.votes.votes = none) := by
  refine ⟨by decide, by decide, ?_, ?_⟩
  · exact (c8_void_cancel 0 wV2 0 7 wVip wEl (by decide) (by decide) (by decide)).2
  · exact (c8_void_cancel 0 wV2 0 7 wVip wEl (by decide) (by decide) (by decide)).1

/-! ## C7: the action codec round-trips -/

/-- C7: `decode(encode(a)) == a` for every constructible action: both the
`Election` branch (kinds `InitiateVote`, `GetResult`) and the `Vote` branch
(kinds `ConfirmInitiateVote`, `SelectVote`, `SkipVote`, `CancelVote`,
`VoidBallot`), at every id value. -/
theorem c7_action_roundtrip (a : Actions.Action) :
    Actions.Action.decode (Actions.Action.encode a) = some a := by
  cases a with
  | Election ea =>
    cases ea with
    | mk eid ty => cases ty <;> rfl
  | Vote va =>
    cases va with
    | mk vid ty => cases ty <;> rfl

/-! ## C6: the reservation invariant -/

/-- The reservation loop refuses as soon as the invariant would break, so
a region list longer than the remaining capacity always errors. -/
lemma reserveAll_too_many :
    ∀ (rs : List String) (e : Election),
      e.reserved_offices.length ≤ e.offices →
      e.offices < e.reserved_offices.length + rs.length →
      reserveAll e rs = none := by
  intro rs
  induction rs with
  | nil =>
    intro e hle hlt
    simp only [List.length_nil, Nat.add_zero] at hlt
    omega
  | cons r rest ih =>
    intro e hle hlt
    simp only [reserveAll]
    by_cases hc : e.offices < e.reserved_offices.length + 1
    · simp [Election.reserve_office, hc]
    · have step2 : (e.reserve_office (trimStr r)).1 = true ∧
        (e.reserve_office (trimStr r)).2.reserved_offices =
          e.reserved_offices ++ [trimStr r] ∧
        (e.reserve_office (trimStr r)).2.offices = e.offices := by
        unfold Election.reserve_office
        rw [if_neg hc]
        exact ⟨rfl, rfl, rfl⟩
      rw [step2.1]
      simp only [if_true]
      apply ih
      · rw [step2.2.1, step2.2.2]
        simp only [List.length_append, List.length_cons, List.length_nil]
        omega
      · rw [step2.2.1, step2.2.2]
        simp only [List.length_append, List.length_cons, List.length_nil] at hlt ⊢
        omega

/-- C6: every election satisfies `len(reserved_offices) ≤ offices` at all
times — every election reachable through the mutators satisfies it, a
refused `reserve_office` leaves the election unchanged, and the
`/election` setup command errors with the too-many-reservations message
and creates nothing (election map and id counter are untouched; only the
usual expiry sweep from `latest` runs) whenever the reservation list is
longer than the office count. -/
theorem c6_reservation_invariant :
    (∀ e : Election, e.Reachable → e.reserved_offices.length ≤ e.offices) ∧
    (∀ (e : Election) (r : Region),
      (e.reserve_office r).1 = false → (e.reserve_office r).2 = e) ∧
    (∀ (now : Int) (author : UserId) (offices : Nat) (rs cs : String) (v2 : V2Elections),
      offices < (splitChar ',' rs).length →
      electionCmd now author offices rs cs (.V2 v2) =
        (.V2 { elections := v2.elections, votes := VoteMap.expire now v2.votes },
         .error "Too many office reservations")) := by
  refine ⟨?_, ?_, ?_⟩
  · intro e h
    induction h with
    | new owner offices => simp [Election.new]
    | reserve e r _ ih =>
      unfold Election.reserve_office
      by_cases hc : e.offices < e.reserved_offices.length + 1
      · rw [if_pos hc]
        exact ih
      · rw [if_neg hc]
        simp only [List.length_append, List.length_cons, List.length_nil]
        omega
    | addCand e n r _ ih => exact ih
    | vote e u n k _ ih => exact ih
  · intro e r h
    unfold Election.reserve_office at h ⊢
    by_cases hc : e.offices < e.reserved_offices.length + 1
    · rw [if_pos hc]
    · rw [if_neg hc] at h
      exact absurd h (by simp)
  · intro now author offices rs cs v2 hlen
    unfold electionCmd
    have hfail : reserveAll (Election.new author offices) (splitChar ',' rs) = none := by
      apply reserveAll_too_many
      · simp [Election.new]
      · simpa [Election.new] using hlen
    rw [Elections.latest, hfail]

/-- Witness for C6: a reachable election with one reserved office keeps
the invariant; an election with zero offices refuses a reservation
unchanged; the command with two reservations for one office errors and
creates nothing. -/
theorem c6_reservation_invariant_witness :
    (((Election.new 1 2).reserve_office "R").2.reserved_offices.length ≤
      ((Election.new 1 2).reserve_office "R").2.offices) ∧
    (((Election.new 1 0).reserve_office "R").2 = Election.new 1 0) ∧
    ((2:Nat) < (splitChar ',' "A,B,C").length ∧
      electionCmd 0 9 2 "A,B,C" "a;R" (.V2 wV2) =
        (.V2 { elections := wV2.elections, votes := VoteMap.expire 0 wV2.votes },
         .error "Too many office reservations")) := by
  refine ⟨?_, ?_, by decide, ?_⟩
  · exact c6_reservation_invariant.1 _
      (Election.Reachable.reserve (Election.new 1 2) "R" (Election.Reachable.new 1 2))
  · exact c6_reservation_invariant.2.1 (Election.new 1 0) "R" (by decide)
  · exact c6_reservation_invariant.2.2 0 9 2 "A,B,C" "a;R" wV2 (by decide)

/-! ## C2: successful `assign` returns exactly `offices` sorted winners -/

/-- The assignment loop: when it succeeds and the officer list has not
outgrown the office count, the winner list has exactly `offices` entries
and is sorted by name. -/
lemma assignGo_winners_exact (cands : List (Name × Region)) (offices : Nat) :
    ∀ (results : List (Score × Name)) (reserved : List Region) (unreserved : Nat)
      (officers : List Name) (ws : List Name),
      officers.length ≤ offices →
      assignGo cands offices reserved unreserved officers results = .winners ws →
      ws.length = offices ∧ ws.Sorted strLe := by
  intro results
  induction results with
  | nil =>
    intro reserved unreserved officers ws hle h
    unfold assignGo at h
    by_cases hc : offices ≤ officers.length
    · rw [if_pos hc] at h
      cases h
      refine ⟨?_, List.sorted_insertionSort strLe officers⟩
      rw [(List.perm_insertionSort strLe officers).length_eq]
      omega
    · rw [if_neg hc] at h
      exact absurd h (by simp)
  | cons p rest ih =>
    intro reserved unreserved officers ws hle h
    obtain ⟨s, c⟩ := p
    unfold assignGo at h
    by_cases hc : offices ≤ officers.length
    · rw [if_pos hc] at h
      cases h
      refine ⟨?_, List.sorted_insertionSort strLe officers⟩
      rw [(List.perm_insertionSort strLe officers).length_eq]
      omega
    · rw [if_neg hc] at h
      cases hl : alookup c cands with
      | none =>
        rw [hl] at h
        exact absurd h (by simp)
      | some region =>
        rw [hl] at h
        dsimp only at h
        cases hf : removeFirst region reserved with
        | some reservedLeft =>
          rw [hf] at h
          dsimp only at h
          apply ih _ _ _ _ _ h
          simp only [List.length_append, List.length_cons, List.length_nil]
          omega
        | none =>
          rw [hf] at h
          dsimp only at h
          by_cases hu : 0 < unreserved
          · rw [if_pos hu] at h
            apply ih _ _ _ _ _ h
            simp only [List.length_append, List.length_cons, List.length_nil]
            omega
          · rw [if_neg hu] at h
            exact ih _ _ _ _ hle h

/-- C2: whenever `assign` returns successfully (not Infeasible, not the
panic) it returns exactly `offices` winners — never more — and the winner
list is sorted canonically by candidate name. -/
theorem c2_assign_winner_count_sorted (e : Election) (rs : List (Score × Name))
    (ws : List Name) (h : e.assign rs = .winners ws) :
    ws.length = e.offices ∧ ws.Sorted strLe :=
  assignGo_winners_exact e.candidates e.offices rs.reverse e.reserved_offices
    (e.offices - e.reserved_offices.length) [] ws (Nat.zero_le _) h

/-- The election of the spec's concrete scenario (§8): office count 4,
reserved `[AMER, EMEA]`, candidates a:AMER b:EMEA c:EMEA d:EMEA e:AMER. -/
def wSpecElection : Election :=
  { owner := 1, offices := 4, reserved_offices := ["AMER", "EMEA"],
    candidates := [("a", "AMER"), ("b", "EMEA"), ("c", "EMEA"), ("d", "EMEA"), ("e", "AMER")],
    ballots := [] }

/-- The ascending score list of the spec's concrete scenario
(a:5, b:7, d:8, e:9, c:10). -/
def wSpecResults : List (Score × Name) :=
  [(some (5, 1), "a"), (some (7, 1), "b"), (some (8, 1), "d"),
   (some (9, 1), "e"), (some (10, 1), "c")]

/-- Witness for C2 on the spec's concrete scenario: the winners are the
four names `b, c, d, e`, sorted. -/
theorem c2_assign_winner_count_sorted_witness :
    wSpecElection.assign wSpecResults = .winners ["b", "c", "d", "e"] ∧
    (["b", "c", "d", "e"] : List Name).length = wSpecElection.offices ∧
    (["b", "c", "d", "e"] : List Name).Sorted strLe := by
  refine ⟨by rfl, ?_⟩
  exact c2_assign_winner_count_sorted wSpecElection wSpecResults _ (by rfl)

/-! ## C3: infeasibility versus the count of slot-fitting candidates -/

/-- A candidate fits some slot of the election as initially configured: a
reserved slot matching their region, or an unreserved slot (the spec's
eligibility test). -/
def fitsSlot (cands : List (Name × Region)) (reserved : List Region) (unreserved : Nat)
    (n : Name) : Bool :=
  (match alookup n cands with
   | some r => reserved.any (fun x => x = r)
   | none => false) || decide (0 < unreserved)

/-- The number of scored entries whose candidate fits some slot. -/
def fittingCount (e : Election) (results : List (Score × Name)) : Nat :=
  ((results.map Prod.snd).filter
    (fitsSlot e.candidates e.reserved_offices (e.offices - e.reserved_offices.length))).length

lemma removeFirst_some (region : Region) :
    ∀ (l l' : List Region), removeFirst region l = some l' →
      region ∈ l ∧ (∀ r ∈ l', r ∈ l) := by
  intro l
  induction l with
  | nil => intro l' h; exact absurd h (by simp [removeFirst])
  | cons r rest ih =>
    intro l' h
    simp only [removeFirst] at h
    by_cases hr : r = region
    · rw [if_pos hr] at h
      cases h
      exact ⟨by simp [hr], fun x hx => List.mem_cons_of_mem _ hx⟩
    · rw [if_neg hr] at h
      cases hrec : removeFirst region rest with
      | none => rw [hrec] at h; simp at h
      | some l2 =>
        rw [hrec] at h
        simp only [Option.map, Option.some.injEq] at h
        have := ih l2 hrec
        constructor
        · exact List.mem_cons_of_mem _ this.1
        · intro x hx
          rw [← h] at hx
          rcases List.mem_cons.mp hx with e | e
          · simp [e]
          · exact List.mem_cons_of_mem _ (this.2 x e)

/-- The assignment loop never panics when every scored name has a region
in the candidate map. -/
lemma assignGo_no_panic (cands : List (Name × Region)) (offices : Nat) :
    ∀ (results : List (Score × Name)) (reserved : List Region) (unreserved : Nat)
      (officers : List Name),
      (∀ n ∈ results.map Prod.snd, (alookup n cands).isSome) →
      assignGo cands offices reserved unreserved officers results ≠ .panic := by
  intro results
  induction results with
  | nil =>
    intro reserved unreserved officers _ h
    unfold assignGo at h
    by_cases hc : offices ≤ officers.length
    · rw [if_pos hc] at h
      exact absurd h (by simp)
    · rw [if_neg hc] at h
      exact absurd h (by simp)
  | cons p rest ih =>
    intro reserved unreserved officers hall h
    obtain ⟨s, c⟩ := p
    unfold assignGo at h
    by_cases hc : offices ≤ officers.length
    · rw [if_pos hc] at h
      exact absurd h (by simp)
    · rw [if_neg hc] at h
      have hc2 : (alookup c cands).isSome := hall c (by simp)
      cases hl : alookup c cands with
      | none => rw [hl] at hc2; exact absurd hc2 (by simp)
      | some region =>
        rw [hl] at h
        dsimp only at h
        have hrest : ∀ n ∈ rest.map Prod.snd, (alookup n cands).isSome := by
          intro n hn
          exact hall n (by simp [hn])
        cases hf : removeFirst region reserved with
        | some reservedLeft =>
          rw [hf] at h
          exact ih _ _ _ hrest h
        | none =>
          rw [hf] at h
          dsimp only at h
          by_cases hu : 0 < unreserved
          · rw [if_pos hu] at h
            exact ih _ _ _ hrest h
          · rw [if_neg hu] at h
            exact ih _ _ _ hrest h

/-- The assignment loop can only crown winners that fit slots of the
initial configuration: the final winner count is bounded by the officers
so far plus the number of remaining fitting entries. -/
lemma assignGo_winners_count (cands : List (Name × Region)) (offices : Nat)
    (reserved0 : List Region) (unreserved0 : Nat) :
    ∀ (results : List (Score × Name)) (reserved : List Region) (unreserved : Nat)
      (officers : List Name) (ws : List Name),
      (∀ r ∈ reserved, r ∈ reserved0) →
      (0 < unreserved → 0 < unreserved0) →
      assignGo cands offices reserved unreserved officers results = .winners ws →
      ws.length ≤ officers.length +
        ((results.map Prod.snd).filter (fitsSlot cands reserved0 unreserved0)).length := by
  intro results
  induction results with
  | nil =>
    intro reserved unreserved officers ws _ _ h
    unfold assignGo at h
    by_cases hc : offices ≤ officers.length
    · rw [if_pos hc] at h
      cases h
      rw [(List.perm_insertionSort strLe officers).length_eq]
      exact Nat.le_add_right _ _
    · rw [if_neg hc] at h
      exact absurd h (by simp)
  | cons p rest ih =>
    intro reserved unreserved officers ws hsub hun h
    obtain ⟨s, c⟩ := p
    unfold assignGo at h
    by_cases hc : offices ≤ officers.length
    · rw [if_pos hc] at h
      cases h
      rw [(List.perm_insertionSort strLe officers).length_eq]
      exact Nat.le_add_right _ _
    · rw [if_neg hc] at h
      cases hl : alookup c cands with
      | none =>
        rw [hl] at h
        exact absurd h (by simp)
      | some region =>
        rw [hl] at h
        dsimp only at h
        cases hf : removeFirst region reserved with
        | some reservedLeft =>
          rw [hf] at h
          dsimp only at h
          have hmem := removeFirst_some region reserved reservedLeft hf
          have hfit : fitsSlot cands reserved0 unreserved0 c = true := by
            unfold fitsSlot
            rw [hl]
            have : region ∈ reserved0 := hsub region hmem.1
            simp only [Bool.or_eq_true, List.any_eq_true]
            exact Or.inl ⟨region, this, by simp⟩
          have := ih reservedLeft unreserved (officers ++ [c]) ws
            (fun r hr => hsub r (hmem.2 r hr)) hun h
          simp only [List.length_append, List.length_cons, List.length_nil] at this
          simp [List.filter_cons, hfit]
          omega
        | none =>
          rw [hf] at h
          dsimp only at h
          by_cases hu : 0 < unreserved
          · rw [if_pos hu] at h
            have hfit : fitsSlot cands reserved0 unreserved0 c = true := by
              unfold fitsSlot
              simp only [Bool.or_eq_true, decide_eq_true_eq]
              exact Or.inr (hun hu)
            have := ih reserved (unreserved - 1) (officers ++ [c]) ws hsub
              (fun h2 => hun (by omega)) h
            simp only [List.length_append, List.length_cons, List.length_nil] at this
            simp [List.filter_cons, hfit]
            omega
          · rw [if_neg hu] at h
            have := ih reserved unreserved officers ws hsub hun h
            cases hfitb : fitsSlot cands reserved0 unreserved0 c <;>
              simp [List.filter_cons, hfitb] <;> omega

/-- C3 (amended): if the number of scored entries whose candidates fit
some slot is below the office count, `assign` is Infeasible (provided all
scored names are candidates, so the region unwrap cannot panic).  The
converse of the spec's iff is refuted separately. -/
theorem c3_infeasible_of_few_fitting (e : Election) (rs : List (Score × Name))
    (hall : ∀ n ∈ rs.map Prod.snd, (alookup n e.candidates).isSome)
    (hfew : fittingCount e rs < e.offices) :
    e.assign rs = .infeasible := by
  unfold Election.assign
  cases hres : assignGo e.candidates e.offices e.reserved_offices
      (e.offices - e.reserved_offices.length) [] rs.reverse with
  | panic =>
    exact absurd hres (assignGo_no_panic e.candidates e.offices rs.reverse _ _ _
      (by
        intro n hn
        apply hall
        rw [List.map_reverse] at hn
        exact List.mem_reverse.mp hn))
  | infeasible => rfl
  | winners ws =>
    exfalso
    have hcount := assignGo_winners_count e.candidates e.offices e.reserved_offices
      (e.offices - e.reserved_offices.length) rs.reverse e.reserved_offices
      (e.offices - e.reserved_offices.length) [] ws (fun r hr => hr) (fun h => h) hres
    have hexact := assignGo_winners_exact e.candidates e.offices rs.reverse
      e.reserved_offices (e.offices - e.reserved_offices.length) [] ws
      (Nat.zero_le _) hres
    have hrev : ((rs.reverse.map Prod.snd).filter
        (fitsSlot e.candidates e.reserved_offices
          (e.offices - e.reserved_offices.length))).length = fittingCount e rs := by
      unfold fittingCount
      rw [List.map_reverse, List.filter_reverse, List.length_reverse]
    rw [hrev] at hcount
    simp only [List.length_nil, Nat.zero_add] at hcount
    omega

/-- The C3 counterexample election: two offices, both reserved (`A`, `B`),
two scored candidates who both live in region `A`. -/
def wC3Election : Election :=
  { owner := 1, offices := 2, reserved_offices := ["A", "B"],
    candidates := [("x", "A"), ("y", "A")], ballots := [] }

/-- The C3 counterexample score list (ascending): y:1, x:2. -/
def wC3Results : List (Score × Name) := [(some (1, 1), "y"), (some (2, 1), "x")]

/-- C3 counterexample: the claimed iff fails.  Both scored candidates fit
a slot (both match the reserved `A` slot), so the fitting count (2)
reaches the office count (2) and the claim says the assignment is
feasible — yet `assign` is Infeasible, because the two candidates compete
for the single `A` slot and the `B` slot can never be filled. -/
theorem c3_iff_counterexample :
    wC3Election.assign wC3Results = .infeasible ∧
    wC3Election.offices ≤ fittingCount wC3Election wC3Results := by
  exact ⟨by rfl, by decide⟩

/-- The C3 witness election: one office whose single slot is reserved for
region `B`, and one scored candidate who lives in region `A`. -/
def wC3OneElection : Election :=
  { owner := 1, offices := 1, reserved_offices := ["B"],
    candidates := [("x", "A")], ballots := [] }

/-- The C3 witness score list. -/
def wC3OneResults : List (Score × Name) := [(some (2, 1), "x")]

/-- Witness for C3 (amended): the lone candidate fits neither the
`B`-reserved slot nor a (nonexistent) unreserved slot, so the fitting
count 0 is below the office count 1 and assignment is Infeasible. -/
theorem c3_infeasible_of_few_fitting_witness :
    (∀ n ∈ wC3OneResults.map Prod.snd, (alookup n wC3OneElection.candidates).isSome) ∧
    fittingCount wC3OneElection wC3OneResults < wC3OneElection.offices ∧
    wC3OneElection.assign wC3OneResults = .infeasible := by
  refine ⟨by decide, by decide, ?_⟩
  exact c3_infeasible_of_few_fitting wC3OneElection wC3OneResults (by decide) (by decide)

/-! ## C1: tally scores -/

/-- The sum of the ranks that all ballots give a candidate (the quantity
the claim equates with the score). -/
def rankSum (e : Election) (n : Name) : Nat :=
  ((e.flatPairs.filter (fun p => p.1 = n)).map Prod.snd).sum

/-- The number of ballot entries ranking a candidate strictly positively
(the normalization divisor tracked by `tally`). -/
def posCount (e : Election) (n : Name) : Nat :=
  (e.flatPairs.filter (fun p => p.1 = n)).countP (fun p => 0 < p.2)

lemma accum_lookup_getD (f : Name × Nat → Nat) :
    ∀ (l m : List (Name × Nat)) (k : Name),
      (alookup k (l.foldl (fun m p => addTo m p.1 (f p)) m)).getD 0 =
        (alookup k m).getD 0 + ((l.filter (fun p => p.1 = k)).map f).sum := by
  intro l
  induction l with
  | nil => intro m k; simp
  | cons p rest ih =>
    intro m k
    simp only [List.foldl_cons]
    rw [ih]
    by_cases hp : p.1 = k
    · rw [hp, addTo_lookup_self]
      simp [List.filter_cons, hp]
      omega
    · rw [addTo_lookup_ne m k p.1 (f p) hp]
      simp [List.filter_cons, hp]

lemma accum_lookup_isSome (f : Name × Nat → Nat) :
    ∀ (l m : List (Name × Nat)) (k : Name),
      (alookup k (l.foldl (fun m p => addTo m p.1 (f p)) m)).isSome =
        ((alookup k m).isSome || l.any (fun p => p.1 = k)) := by
  intro l
  induction l with
  | nil => intro m k; simp
  | cons p rest ih =>
    intro m k
    simp only [List.foldl_cons]
    rw [ih]
    by_cases hp : p.1 = k
    · rw [hp, addTo_lookup_self]
      simp [hp]
    · rw [addTo_lookup_ne m k p.1 (f p) hp]
      simp [hp]

lemma accum_keys_nodup (f : Name × Nat → Nat) :
    ∀ (l m : List (Name × Nat)), (m.map Prod.fst).Nodup →
      (((l.foldl (fun m p => addTo m p.1 (f p)) m)).map Prod.fst).Nodup := by
  intro l
  induction l with
  | nil => intro m h; exact h
  | cons p rest ih =>
    intro m h
    simp only [List.foldl_cons]
    exact ih _ (addTo_keys_nodup m p.1 (f p) h)

lemma sum_indicator_eq_countP :
    ∀ l : List (Name × Nat),
      ((l.map (fun p => if 0 < p.2 then 1 else 0)).sum = l.countP (fun p => 0 < p.2)) := by
  intro l
  induction l with
  | nil => rfl
  | cons p rest ih =>
    simp only [List.map_cons, List.sum_cons, List.countP_cons, ih]
    by_cases hp : 0 < p.2
    · simp [hp]
      omega
    · simp [hp]

lemma alookup_isSome_iff_mem {α β : Type} [DecidableEq α] (k : α) (l : List (α × β)) :
    (alookup k l).isSome ↔ k ∈ l.map Prod.fst := by
  induction l with
  | nil => simp [alookup]
  | cons q rest ih =>
    simp only [alookup, List.map_cons, List.mem_cons]
    by_cases hq : q.1 = k
    · simp [hq]
    · rw [if_neg hq, ih]
      constructor
      · intro h
        exact Or.inr h
      · rintro (h | h)
        · exact absurd h.symm hq
        · exact h

/-- The rank-sum value held by the `results` accumulator. -/
lemma resultsMap_lookup (e : Election) (n : Name) :
    (alookup n e.resultsMap).getD 0 = rankSum e n := by
  unfold Election.resultsMap accumBy rankSum
  rw [accum_lookup_getD]
  simp [alookup]

/-- The positive-vote count held by the `votes` accumulator. -/
lemma votesMap_lookup (e : Election) (n : Name) :
    (alookup n e.votesMap).getD 0 = posCount e n := by
  unfold Election.votesMap accumBy posCount
  rw [accum_lookup_getD]
  simp only [alookup, Option.getD_none, Nat.zero_add]
  exact sum_indicator_eq_countP _

/-- The score paired with a candidate in the tally list is determined by
the rank sum and the positive-vote count. -/
lemma tallyScores_val (e : Election) (n : Name) (s : Score) (hs : (s, n) ∈ e.tallyScores) :
    s = (if posCount e n = 0 then none else some (rankSum e n, posCount e n)) := by
  unfold Election.tallyScores at hs
  obtain ⟨q, hq, hqe⟩ := List.mem_map.mp hs
  have hq1 : q.1 = n := congrArg Prod.snd hqe
  have hs2 : s = scoreVal ((alookup q.1 e.votesMap).getD 0) q.2 :=
    (congrArg Prod.fst hqe).symm
  have hnd : (e.resultsMap.map Prod.fst).Nodup := by
    unfold Election.resultsMap accumBy
    exact accum_keys_nodup _ e.flatPairs [] (by simp)
  have hlook : alookup n e.resultsMap = some q.2 := by
    apply alookup_of_mem_nodup n q.2 e.resultsMap hnd
    rw [← hq1]
    exact hq
  have hq2 : q.2 = rankSum e n := by
    have := resultsMap_lookup e n
    rw [hlook] at this
    exact this
  rw [hs2, hq1, votesMap_lookup, hq2]
  unfold scoreVal
  rfl

/-- A candidate appears in the tally list iff some ballot carries an entry
for them (rank 0 included). -/
lemma tallyScores_mem_keys_iff (e : Election) (n : Name) :
    n ∈ e.tallyScores.map Prod.snd ↔ n ∈ e.flatPairs.map Prod.fst := by
  have hkeys : e.tallyScores.map Prod.snd = e.resultsMap.map Prod.fst := by
    unfold Election.tallyScores
    rw [List.map_map]
    rfl
  rw [hkeys]
  rw [← alookup_isSome_iff_mem n e.resultsMap]
  unfold Election.resultsMap accumBy
  rw [accum_lookup_isSome]
  simp only [alookup, Option.isSome_none, Bool.false_or]
  constructor
  · intro h
    obtain ⟨p, hp, hpe⟩ := List.any_eq_true.mp h
    have hp1 : p.1 = n := of_decide_eq_true hpe
    rw [← hp1]
    exact List.mem_map_of_mem Prod.fst hp
  · intro h
    obtain ⟨p, hp, hpe⟩ := List.mem_map.mp h
    exact List.any_eq_true.mpr ⟨p, hp, by simp [hpe]⟩

/-- C1 (amended): a candidate appears in the tally result iff some ballot
has an entry for them (rank-0 abstentions included — they do not remove
the candidate); the score paired with a candidate is the sum of their
ranks divided by the number of ballots ranking them strictly positively
(NaN when that count is zero), not the bare sum. -/
theorem c1_tally_normalized (e : Election) (n : Name) :
    (n ∈ e.tallyScores.map Prod.snd ↔ n ∈ e.flatPairs.map Prod.fst) ∧
    (∀ s : Score, (s, n) ∈ e.tallyScores →
      s = (if posCount e n = 0 then none else some (rankSum e n, posCount e n))) ∧
    (∀ (s : Score) (v cnt : Nat), (s, n) ∈ e.tallyScores → s = some (v, cnt) →
      scoreQ (v, cnt) = (rankSum e n : ℚ) / (posCount e n : ℚ)) := by
  refine ⟨tallyScores_mem_keys_iff e n, tallyScores_val e n, ?_⟩
  intro s v cnt hs hsome
  have := tallyScores_val e n s hs
  rw [hsome] at this
  by_cases hz : posCount e n = 0
  · rw [if_pos hz] at this
    exact absurd this (by simp)
  · rw [if_neg hz] at this
    have hv : v = rankSum e n := congrArg (fun o => (o.getD (0, 0)).1) this
    have hcnt : cnt = posCount e n := congrArg (fun o => (o.getD (0, 0)).2) this
    rw [scoreQ, hv, hcnt]

/-- The C1 counterexample election: two ballots both rank candidate `a`
with 5. -/
def wC1Election : Election := ((Election.new 1 1).voteFor 1 "a" 5).voteFor 2 "a" 5

/-- C1 counterexample: the claim says the tally score equals the sum of
ranks.  With two ballots ranking `a` at 5, the sum is 10 but `tally`
assigns the normalized score 10 / 2 = 5. -/
theorem c1_sum_claim_counterexample :
    wC1Election.tallyScores = [(some (10, 2), "a")] ∧
    rankSum wC1Election "a" = 10 ∧
    scoreQ (10, 2) = 5 ∧ (5 : ℚ) ≠ 10 := by
  refine ⟨by rfl, by rfl, ?_, by norm_num⟩
  unfold scoreQ
  norm_num

/-- The C1 witness election: one ballot ranks `a` at 5, a second ballot
abstains on `a` (rank 0). -/
def wC1bElection : Election := ((Election.new 1 1).voteFor 1 "a" 5).voteFor 2 "a" 0

/-- Witness for C1 (amended) at a concrete election: the abstaining rank-0
entry keeps `a` in the result and the score is sum 5 over positive-count
1. -/
theorem c1_tally_normalized_witness :
    ((some (5, 1), "a") ∈ wC1bElection.tallyScores) ∧
    ((some (5, 1) : Score) =
      (if posCount wC1bElection "a" = 0 then none
       else some (rankSum wC1bElection "a", posCount wC1bElection "a"))) ∧
    ("a" ∈ wC1bElection.tallyScores.map Prod.snd ↔
      "a" ∈ wC1bElection.flatPairs.map Prod.fst) := by
  refine ⟨by decide, ?_, (c1_tally_normalized wC1bElection "a").1⟩
  exact (c1_tally_normalized wC1bElection "a").2.1 _ (by decide)

/-! ## C10: totality of `tally` and `run` -/

/-- The C10 counterexample election: candidates `a`, `b` in region `R`;
one ballot abstains on `a` (rank 0) and ranks `b` at 1. -/
def wC10Election : Election :=
  ((((Election.new 1 1).add_candidate "a" "R").add_candidate "b" "R").voteFor
    1 "a" 0).voteFor 1 "b" 1

/-- C10 counterexample: at an election where every recorded entry for `a`
has rank 0 while `b` has a positive rank, the normalized score of `a` is
0/0 = NaN, and `sort_by(partial_cmp(..).unwrap())` panics — `tally` (and
therefore `run`) does not return a result. -/
theorem c10_nan_panic_counterexample :
    wC10Election.tallyPanics = true ∧
    wC10Election.tallyChecked =
      .error "panicked: partial_cmp returned None for a NaN score" ∧
    wC10Election.runModel =
      .error "panicked: partial_cmp returned None for a NaN score" := by
  exact ⟨by decide, by rfl, by rfl⟩

/-- C10 (amended): `tally` and `run` return without panicking provided
every candidate that appears on some ballot has at least one entry with
rank > 0 (so no score is NaN) and every name on a ballot is in the
candidate map (so the region unwrap in `assign` cannot fail).  With a
candidate whose entries are all rank 0 beside another scored candidate,
the NaN comparison panics (see the counterexample). -/
theorem c10_total_when_positively_ranked (e : Election)
    (hpos : ∀ n ∈ e.flatPairs.map Prod.fst, 0 < posCount e n)
    (hcand : ∀ n ∈ e.flatPairs.map Prod.fst, (alookup n e.candidates).isSome) :
    e.tallyPanics = false ∧
    (∃ rs, e.tallyChecked = .ok rs) ∧
    (∃ r, e.runModel = .ok r) := by
  have hsome : ∀ p ∈ e.tallyScores, p.1.isSome = true := by
    intro p hp
    have hmem : p.2 ∈ e.flatPairs.map Prod.fst := by
      rw [← tallyScores_mem_keys_iff]
      exact List.mem_map_of_mem Prod.snd hp
    have hval := tallyScores_val e p.2 p.1 (by
      cases p
      exact hp)
    rw [if_neg (by
      have := hpos p.2 hmem
      omega)] at hval
    rw [hval]
    rfl
  have hpanics : e.tallyPanics = false := by
    unfold Election.tallyPanics
    have hany : e.tallyScores.any (fun p => p.1.isNone) = false := by
      cases hcase : e.tallyScores.any (fun p => p.1.isNone) with
      | false => rfl
      | true =>
        obtain ⟨p, hp, hpe⟩ := List.any_eq_true.mp hcase
        have := hsome p hp
        rw [Option.isNone_iff_eq_none.mp hpe] at this
        exact absurd this (by simp)
    rw [hany]
    simp
  have hchecked : e.tallyChecked = .ok (e.tallyScores.insertionSort scoreLe) := by
    unfold Election.tallyChecked
    rw [hpanics]
    rfl
  refine ⟨hpanics, ⟨_, hchecked⟩, ?_⟩
  have hnames : ∀ n ∈ (e.tallyScores.insertionSort scoreLe).map Prod.snd,
      (alookup n e.candidates).isSome := by
    intro n hn
    apply hcand
    rw [← tallyScores_mem_keys_iff]
    obtain ⟨p, hp, hpe⟩ := List.mem_map.mp hn
    have hp2 : p ∈ e.tallyScores := (List.perm_insertionSort scoreLe e.tallyScores).mem_iff.mp hp
    rw [← hpe]
    exact List.mem_map_of_mem Prod.snd hp2
  unfold Election.runModel
  rw [hchecked]
  dsimp only
  cases hassign : e.assign (e.tallyScores.insertionSort scoreLe) with
  | panic =>
    exfalso
    apply assignGo_no_panic e.candidates e.offices
      (e.tallyScores.insertionSort scoreLe).reverse e.reserved_offices
      (e.offices - e.reserved_offices.length) []
    · intro n hn
      apply hnames
      rw [List.map_reverse] at hn
      exact List.mem_reverse.mp hn
    · exact hassign
  | infeasible => exact ⟨none, rfl⟩
  | winners ws => exact ⟨some ws, rfl⟩

/-- The C10 witness election: candidate `a` ranked positively. -/
def wC10bElection : Election :=
  ((Election.new 1 1).add_candidate "a" "R").voteFor 1 "a" 2

/-- Witness for C10 (amended): with one positively ranked candidate the
tally does not panic and `run` returns a result. -/
theorem c10_total_when_positively_ranked_witness :
    (∀ n ∈ wC10bElection.flatPairs.map Prod.fst, 0 < posCount wC10bElection n) ∧
    (∀ n ∈ wC10bElection.flatPairs.map Prod.fst,
      (alookup n wC10bElection.candidates).isSome) ∧
    (wC10bElection.tallyPanics = false ∧
      (∃ rs, wC10bElection.tallyChecked = .ok rs) ∧
      (∃ r, wC10bElection.runModel = .ok r)) := by
  refine ⟨by decide, by decide, ?_⟩
  exact c10_total_when_positively_ranked wC10bElection (by decide) (by decide)

/-! ## C4: backup generations on persist -/

lemma alookup_append_right {α β : Type} [DecidableEq α] (k : α) :
    ∀ (l1 l2 : List (α × β)), k ∉ l1.map Prod.fst → alookup k (l1 ++ l2) = alookup k l2 := by
  intro l1
  induction l1 with
  | nil => intro l2 _; rfl
  | cons q rest ih =>
    intro l2 h
    simp only [List.map_cons, List.mem_cons] at h
    push_neg at h
    simp only [List.cons_append, alookup]
    rw [if_neg (fun e => h.1 e.symm)]
    exact ih l2 h.2

/-- Inserting a file whose name is strictly greatest in path-sort order
appends it at the end of the (sorted) folder. -/
lemma btInsert_append_of_max {β : Type} (k : String) (v : β) :
    ∀ l : List (String × β), (∀ k2 ∈ l.map Prod.fst, strLt k2 k = true) →
      btInsert k v l = l ++ [(k, v)] := by
  intro l
  induction l with
  | nil => intro _; rfl
  | cons q rest ih =>
    intro hmax
    obtain ⟨k2, v2⟩ := q
    have hk2 : strLt k2 k = true := hmax k2 (by simp)
    have hnotlt : ¬ (strLt k k2 = true) := by
      rw [strLt_asymm _ _ hk2]
      simp
    have hne : ¬ (k = k2) := by
      intro e
      rw [e, strLt_irrefl] at hk2
      exact absurd hk2 (by simp)
    simp only [btInsert]
    rw [if_neg hnotlt, if_neg hne, ih (fun k3 hk3 => hmax k3 (by simp [hk3]))]
    rfl

/-- The full behaviour of `persist_folder` on a path-sorted folder whose
contents all sort below the new file name: the new file is copied in (and
survives pruning), the folder never exceeds its retention limit, and
pruning fires exactly when the folder would exceed the limit, deleting
precisely the files that are smallest in path-sort order. -/
lemma persist_folder_spec (c : String) (folder : List (String × String))
    (filename : String) (keep : Nat)
    (hsorted : List.Pairwise (fun a b => strLt a.1 b.1 = true) folder)
    (hmax : ∀ k ∈ folder.map Prod.fst, strLt k filename = true)
    (hkeep : 1 ≤ keep) :
    alookup filename (persist_folder (some c) folder filename keep) = some c ∧
    (persist_folder (some c) folder filename keep).length ≤ keep ∧
    ∃ deleted,
      folder ++ [(filename, c)] = deleted ++ persist_folder (some c) folder filename keep ∧
      (if keep < folder.length + 1 then
        (persist_folder (some c) folder filename keep).length = keep
       else deleted = []) ∧
      (∀ d ∈ deleted.map Prod.fst,
        ∀ r ∈ (persist_folder (some c) folder filename keep).map Prod.fst,
          strLt d r = true) := by
  have hins : btInsert filename c folder = folder ++ [(filename, c)] :=
    btInsert_append_of_max filename c folder hmax
  have hLsorted :
      List.Pairwise (fun a b => strLt a.1 b.1 = true) (folder ++ [(filename, c)]) := by
    rw [List.pairwise_append]
    refine ⟨hsorted, List.pairwise_singleton _ _, ?_⟩
    intro a ha b hb
    have hb2 : b = (filename, c) := by simpa using hb
    rw [hb2]
    exact hmax a.1 (List.mem_map_of_mem Prod.fst ha)
  have hfree : filename ∉ folder.map Prod.fst := by
    intro hk
    have := hmax filename hk
    rw [strLt_irrefl] at this
    exact absurd this (by simp)
  unfold persist_folder
  dsimp only
  rw [hins]
  have hlenL : (folder ++ [(filename, c)]).length = folder.length + 1 := by simp
  by_cases hover : keep < (folder ++ [(filename, c)]).length
  · rw [if_pos hover]
    have hnle : (folder ++ [(filename, c)]).length - keep ≤ folder.length := by omega
    have hdropeq : (folder ++ [(filename, c)]).drop
          ((folder ++ [(filename, c)]).length - keep) =
        folder.drop ((folder ++ [(filename, c)]).length - keep) ++ [(filename, c)] :=
      List.drop_append_of_le_length hnle
    refine ⟨?_, ?_, (folder ++ [(filename, c)]).take
      ((folder ++ [(filename, c)]).length - keep), ?_, ?_, ?_⟩
    · rw [hdropeq]
      rw [alookup_append_right]
      · simp [alookup]
      · intro hk
        apply hfree
        obtain ⟨p, hp, hpe⟩ := List.mem_map.mp hk
        exact hpe ▸ List.mem_map_of_mem Prod.fst (List.drop_subset _ folder hp)
    · rw [List.length_drop]
      omega
    · rw [List.take_append_drop]
    · rw [if_pos (by omega), List.length_drop]
      omega
    · intro d hd r hr
      obtain ⟨pd, hpd, hpde⟩ := List.mem_map.mp hd
      obtain ⟨pr, hpr, hpre⟩ := List.mem_map.mp hr
      have hsplit := (List.pairwise_append.mp (by
        rw [List.take_append_drop
          ((folder ++ [(filename, c)]).length - keep) (folder ++ [(filename, c)])]
        exact hLsorted)).2.2
      have := hsplit pd hpd pr hpr
      rw [hpde, hpre] at this
      exact this
  · rw [if_neg hover]
    refine ⟨?_, by omega, [], by simp, ?_, by simp⟩
    · rw [alookup_append_right _ folder [(filename, c)] hfree]
      simp [alookup]
    · rw [if_neg (by omega)]

/-- C4 (amended): on a successful persist the history generation receives
a snapshot of the primary file taken **before** the overwrite; the hourly,
daily and monthly generations are copied **after** the primary file has
been overwritten, so they hold the new dataset, under the bucketed names
`base-<ts/3600>.json`, `base-<ts/86400>.json`, `base-<ts/2419200>.json`;
each generation is pruned to its retention limit (20 / 24 / 30 /
`usize::MAX`), with pruning firing exactly when a generation would exceed
its limit and deleting precisely the files that are smallest in path-sort
order (leaving exactly the limit many).  Stated for folders in path-sort
order (as `read_dir` + sort produces) whose existing names sort below the
new file name. -/
theorem c4_backup_generations (fs : DataFs) (base : String) (now : Nat)
    (newData cOld : String)
    (hp : fs.primary = some cOld)
    (hhsort : List.Pairwise (fun a b => strLt a.1 b.1 = true) fs.history)
    (hhmax : ∀ k ∈ fs.history.map Prod.fst,
      strLt k (base ++ "-" ++ toString now ++ ".json") = true)
    (husort : List.Pairwise (fun a b => strLt a.1 b.1 = true) fs.hourly)
    (humax : ∀ k ∈ fs.hourly.map Prod.fst,
      strLt k (base ++ "-" ++ toString (now / 60 / 60) ++ ".json") = true)
    (hdsort : List.Pairwise (fun a b => strLt a.1 b.1 = true) fs.daily)
    (hdmax : ∀ k ∈ fs.daily.map Prod.fst,
      strLt k (base ++ "-" ++ toString (now / 60 / 60 / 24) ++ ".json") = true)
    (hmsort : List.Pairwise (fun a b => strLt a.1 b.1 = true) fs.monthly)
    (hmmax : ∀ k ∈ fs.monthly.map Prod.fst,
      strLt k (base ++ "-" ++ toString (now / 60 / 60 / 24 / 28) ++ ".json") = true) :
    (fs.persist base now newData).primary = some newData ∧
    (alookup (base ++ "-" ++ toString now ++ ".json")
      (fs.persist base now newData).history = some cOld ∧
     (fs.persist base now newData).history.length ≤ 20 ∧
     ∃ deleted,
       fs.history ++ [(base ++ "-" ++ toString now ++ ".json", cOld)] =
         deleted ++ (fs.persist base now newData).history ∧
       (if 20 < fs.history.length + 1 then
         (fs.persist base now newData).history.length = 20
        else deleted = []) ∧
       (∀ d ∈ deleted.map Prod.fst,
         ∀ r ∈ (fs.persist base now newData).history.map Prod.fst, strLt d r = true)) ∧
    (alookup (base ++ "-" ++ toString (now / 60 / 60) ++ ".json")
      (fs.persist base now newData).hourly = some newData ∧
     (fs.persist base now newData).hourly.length ≤ 24 ∧
     ∃ deleted,
       fs.hourly ++ [(base ++ "-" ++ toString (now / 60 / 60) ++ ".json", newData)] =
         deleted ++ (fs.persist base now newData).hourly ∧
       (if 24 < fs.hourly.length + 1 then
         (fs.persist base now newData).hourly.length = 24
        else deleted = []) ∧
       (∀ d ∈ deleted.map Prod.fst,
         ∀ r ∈ (fs.persist base now newData).hourly.map Prod.fst, strLt d r = true)) ∧
    (alookup (base ++ "-" ++ toString (now / 60 / 60 / 24) ++ ".json")
      (fs.persist base now newData).daily = some newData ∧
     (fs.persist base now newData).daily.length ≤ 30 ∧
     ∃ deleted,
       fs.daily ++ [(base ++ "-" ++ toString (now / 60 / 60 / 24) ++ ".json", newData)] =
         deleted ++ (fs.persist base now newData).daily ∧
       (if 30 < fs.daily.length + 1 then
         (fs.persist base now newData).daily.length = 30
        else deleted = []) ∧
       (∀ d ∈ deleted.map Prod.fst,
         ∀ r ∈ (fs.persist base now newData).daily.map Prod.fst, strLt d r = true)) ∧
    (alookup (base ++ "-" ++ toString (now / 60 / 60 / 24 / 28) ++ ".json")
      (fs.persist base now newData).monthly = some newData ∧
     ∃ deleted,
       fs.monthly ++
           [(base ++ "-" ++ toString (now / 60 / 60 / 24 / 28) ++ ".json", newData)] =
         deleted ++ (fs.persist base now newData).monthly ∧
       (if usizeMax < fs.monthly.length + 1 then
         (fs.persist base now newData).monthly.length = usizeMax
        else deleted = []) ∧
       (∀ d ∈ deleted.map Prod.fst,
         ∀ r ∈ (fs.persist base now newData).monthly.map Prod.fst, strLt d r = true)) := by
  have hhist := persist_folder_spec cOld fs.history
    (base ++ "-" ++ toString now ++ ".json") 20 hhsort hhmax (by omega)
  have hhour := persist_folder_spec newData fs.hourly
    (base ++ "-" ++ toString (now / 60 / 60) ++ ".json") 24 husort humax (by omega)
  have hday := persist_folder_spec newData fs.daily
    (base ++ "-" ++ toString (now / 60 / 60 / 24) ++ ".json") 30 hdsort hdmax (by omega)
  have hmon := persist_folder_spec newData fs.monthly
    (base ++ "-" ++ toString (now / 60 / 60 / 24 / 28) ++ ".json") usizeMax hmsort hmmax
    (by unfold usizeMax; omega)
  unfold DataFs.persist
  dsimp only
  rw [hp]
  exact ⟨rfl, ⟨hhist.1, hhist.2.1, hhist.2.2⟩, ⟨hhour.1, hhour.2.1, hhour.2.2⟩,
    ⟨hday.1, hday.2.1, hday.2.2⟩, ⟨hmon.1, hmon.2.2⟩⟩

/-- The C4 counterexample / witness state: a primary file holding "old"
and empty backup folders. -/
def wFs : DataFs :=
  { primary := some "old", history := [], hourly := [], daily := [], monthly := [] }

/-- C4 counterexample: the claim says the pre-overwrite snapshot lands in
each of the four generation directories.  Persisting "new" over a primary
holding "old" puts "old" in history but "new" — the post-overwrite
dataset — in the hourly directory (and likewise daily/monthly), refuting
the claim. -/
theorem c4_snapshot_counterexample :
    wFs.primary = some "old" ∧
    alookup "elections-0.json" (wFs.persist "elections" 0 "new").history = some "old" ∧
    alookup "elections-0.json" (wFs.persist "elections" 0 "new").hourly = some "new" ∧
    "new" ≠ "old" := by
  exact ⟨rfl, by rfl, by rfl, by decide⟩

/-- A history folder already holding 20 backups, all of whose names sort
below the next snapshot name `elections-9.json`. -/
def wBigHistory : List (String × String) :=
  (List.range 20).map (fun i => ("elections-" ++ toString (10 + i) ++ ".json",
    "old" ++ toString i))

/-- The C4 witness state: a full history generation, so this persist must
prune. -/
def wFsFull : DataFs :=
  { primary := some "old", history := wBigHistory, hourly := [], daily := [],
    monthly := [] }

/-- Witness for C4 (amended) at a state whose history generation is at its
retention limit: the pre-overwrite snapshot lands in history and the
post-overwrite dataset in hourly; pruning fires on history, leaving
exactly 20 files with the deleted file strictly smallest in path-sort
order, while the under-limit hourly generation deletes nothing. -/
theorem c4_backup_generations_witness :
    wFsFull.primary = some "old" ∧
    (wFsFull.persist "elections" 9 "new").primary = some "new" ∧
    alookup ("elections" ++ "-" ++ toString 9 ++ ".json")
      (wFsFull.persist "elections" 9 "new").history = some "old" ∧
    (wFsFull.persist "elections" 9 "new").history.length ≤ 20 ∧
    (∃ deleted,
      wFsFull.history ++ [("elections" ++ "-" ++ toString 9 ++ ".json", "old")] =
        deleted ++ (wFsFull.persist "elections" 9 "new").history ∧
      (if 20 < wFsFull.history.length + 1 then
        (wFsFull.persist "elections" 9 "new").history.length = 20
       else deleted = []) ∧
      (∀ d ∈ deleted.map Prod.fst,
        ∀ r ∈ (wFsFull.persist "elections" 9 "new").history.map Prod.fst,
          strLt d r = true)) ∧
    (20 < wFsFull.history.length + 1) ∧
    alookup ("elections" ++ "-" ++ toString (9 / 60 / 60) ++ ".json")
      (wFsFull.persist "elections" 9 "new").hourly = some "new" := by
  have h := c4_backup_generations wFsFull "elections" 9 "new" "old" (by rfl)
    (by decide) (by decide) (by decide) (by decide) (by decide) (by decide)
    (by decide) (by decide)
  exact ⟨rfl, h.1, h.2.1.1, h.2.1.2.1, h.2.1.2.2, by decide, h.2.2.1.1⟩

/-! ## C5: one ranking interaction advances exactly one candidate -/

lemma firstAbsent_some (cands : List (Name × Region)) (ballot : List (Name × Nat))
    (n0 : Name) (h : firstAbsent cands ballot = some n0) :
    (alookup n0 ballot).isNone = true ∧ n0 ∈ cands.map Prod.fst := by
  unfold firstAbsent at h
  cases hfind : cands.find? (fun p => (alookup p.1 ballot).isNone) with
  | none => rw [hfind] at h; exact absurd h (by simp)
  | some p =>
    rw [hfind] at h
    simp only [Option.map, Option.some.injEq] at h
    have hpred := List.find?_some hfind
    have hmem := List.mem_of_find?_eq_some hfind
    rw [← h]
    exact ⟨hpred, List.mem_map_of_mem Prod.fst hmem⟩

lemma firstAbsent_cons_present (name : Name) (region : Region)
    (rest : List (Name × Region)) (ballot : List (Name × Nat))
    (h : (alookup name ballot).isNone = false) :
    firstAbsent ((name, region) :: rest) ballot = firstAbsent rest ballot := by
  unfold firstAbsent
  rw [List.find?_cons_of_neg]
  simp [h]

lemma firstAbsent_cons_absent (name : Name) (region : Region)
    (rest : List (Name × Region)) (ballot : List (Name × Nat))
    (h : (alookup name ballot).isNone = true) :
    firstAbsent ((name, region) :: rest) ballot = some name := by
  unfold firstAbsent
  rw [List.find?_cons_of_pos]
  · rfl
  · simpa using h

/-- With the session's vote already registered, the rest of the loop only
scans for the next unanswered candidate. -/
lemma selectGo_registered (kind : DataKind) (ty : VoteActionType) :
    ∀ (cands : List (Name × Region)) (ballot : List (Name × Nat)),
      selectGo kind ty ballot true cands = .ok (ballot, firstAbsent cands ballot) := by
  intro cands
  induction cands with
  | nil => intro ballot; rfl
  | cons p rest ih =>
    intro ballot
    obtain ⟨name, region⟩ := p
    unfold selectGo
    by_cases hpres : (alookup name ballot).isSome
    · rw [if_pos hpres, ih,
        firstAbsent_cons_present name region rest ballot (by simp [Option.isNone_eq_false_iff, Option.isSome_iff_exists] at hpres ⊢; exact hpres)]
    · rw [if_neg hpres]
      have hnone : (alookup name ballot).isNone = true := by
        cases hx : alookup name ballot
        · rfl
        · rw [hx] at hpres; exact absurd rfl hpres
      rw [firstAbsent_cons_absent name region rest ballot hnone]
      simp

/-- The first candidate in list order absent from a ballot with strictly
ascending keys is least in the string order among all absent ones. -/
lemma firstAbsent_least (cands : List (Name × Region)) (ballot : List (Name × Nat))
    (n0 : Name) (hs : List.Pairwise (fun a b => strLt a.1 b.1 = true) cands)
    (h : firstAbsent cands ballot = some n0) :
    ∀ m ∈ cands.map Prod.fst, (alookup m ballot).isNone = true → strLe n0 m := by
  induction cands with
  | nil => intro m hm; exact absurd hm (by simp)
  | cons p rest ih =>
    intro m hm habs
    obtain ⟨name, region⟩ := p
    rcases List.pairwise_cons.mp hs with ⟨hhead, hrest⟩
    rw [List.map_cons] at hm
    by_cases hpres : (alookup name ballot).isNone = true
    · rw [firstAbsent_cons_absent name region rest ballot hpres] at h
      have hn0 : n0 = name := by
        simpa using h.symm
      rcases List.mem_cons.mp hm with hme | hme
      · rw [hn0, hme]
        unfold strLe
        exact strLt_irrefl name
      · obtain ⟨q, hq, hqe⟩ := List.mem_map.mp hme
        have hlt : strLt name q.1 = true := hhead q hq
        rw [hn0]
        unfold strLe
        rw [hqe] at hlt
        exact strLt_asymm _ _ hlt
    · have hpres2 : (alookup name ballot).isNone = false := by
        cases hx : (alookup name ballot).isNone
        · rfl
        · exact absurd hx hpres
      rw [firstAbsent_cons_present name region rest ballot hpres2] at h
      rcases List.mem_cons.mp hm with hme | hme
      · rw [hme] at habs
        rw [habs] at hpres2
        exact absurd hpres2 (by simp)
      · exact ih hrest h m hme habs

/-- The walk of `select_vote` records the vote for the first absent
candidate and then re-scans for the next absent one. -/
lemma selectGo_registers (kind : DataKind) (ty : VoteActionType) (rank : Nat)
    (hinput : (∃ v vs, kind = DataKind.stringSelect (v :: vs) ∧ parseUsize v = some rank) ∨
      (kind = DataKind.other ∧ ty = VoteActionType.SkipVote ∧ rank = 0)) :
    ∀ (cands : List (Name × Region)) (ballot : List (Name × Nat)) (n0 : Name),
      firstAbsent cands ballot = some n0 →
      selectGo kind ty ballot false cands =
        .ok (btInsert n0 rank ballot, firstAbsent cands (btInsert n0 rank ballot)) := by
  intro cands
  induction cands with
  | nil =>
    intro ballot n0 h
    exact absurd h (by simp [firstAbsent])
  | cons p rest ih =>
    intro ballot n0 h
    obtain ⟨name, region⟩ := p
    have hn0abs : (alookup n0 ballot).isNone = true :=
      (firstAbsent_some _ _ _ h).1
    unfold selectGo
    by_cases hpres : (alookup name ballot).isSome
    · rw [if_pos hpres]
      have hpres2 : (alookup name ballot).isNone = false := by
        cases hx : alookup name ballot
        · rw [hx] at hpres; exact absurd hpres (by simp)
        · simp [hx]
      rw [firstAbsent_cons_present name region rest ballot hpres2] at h
      rw [ih ballot n0 h]
      have hne : name ≠ n0 := by
        intro e
        rw [e] at hpres
        rw [Option.isNone_iff_eq_none.mp hn0abs] at hpres
        exact absurd hpres (by simp)
      have hpres3 : (alookup name (btInsert n0 rank ballot)).isNone = false := by
        rw [alookup_btInsert_ne n0 rank name hne]
        exact hpres2
      rw [firstAbsent_cons_present name region rest _ hpres3]
    · rw [if_neg hpres]
      have hnone : (alookup name ballot).isNone = true := by
        cases hx : alookup name ballot
        · rfl
        · rw [hx] at hpres; exact absurd rfl hpres
      have hn0 : n0 = name := by
        rw [firstAbsent_cons_absent name region rest ballot hnone] at h
        simpa using h.symm
      subst hn0
      have hafter : (alookup n0 (btInsert n0 rank ballot)).isNone = false := by
        rw [alookup_btInsert_self]
        rfl
      rcases hinput with ⟨v, vs, hk, hparse⟩ | ⟨hk, hty, hrank⟩
      · subst hk
        dsimp only
        rw [show (v :: vs).head? = some v from rfl]
        dsimp only
        rw [hparse]
        dsimp only
        rw [selectGo_registered]
        rw [firstAbsent_cons_present n0 region rest _ hafter]
        rw [if_pos rfl]
      · subst hk
        subst hty
        subst hrank
        dsimp only
        rw [selectGo_registered]
        rw [firstAbsent_cons_present n0 region rest _ hafter]
        rw [if_pos rfl, if_pos rfl]

/-- C5 (amended): in one ranking interaction — a numeric selection parsed
as an integer (the handler performs no 1–5 range check; the range is only
enforced by the menu options offered), or an explicit skip recorded as
rank 0 — exactly one entry is added to the session's partial ballot,
namely for the first candidate in canonical (lexicographic) order absent
from it; no other ballot entry changes; and the next prompt / completion
is detected by re-scanning the candidate set for the first name absent
from the updated partial ballot. -/
theorem c5_single_advance (kind : DataKind) (ty : VoteActionType) (rank : Nat)
    (cands : List (Name × Region)) (ballot : List (Name × Nat)) (n0 : Name)
    (hinput : (∃ v vs, kind = DataKind.stringSelect (v :: vs) ∧ parseUsize v = some rank) ∨
      (kind = DataKind.other ∧ ty = VoteActionType.SkipVote ∧ rank = 0))
    (hsorted : List.Pairwise (fun a b => strLt a.1 b.1 = true) cands)
    (hfirst : firstAbsent cands ballot = some n0) :
    selectGo kind ty ballot false cands =
      .ok (btInsert n0 rank ballot, firstAbsent cands (btInsert n0 rank ballot)) ∧
    alookup n0 (btInsert n0 rank ballot) = some rank ∧
    (∀ m, m ≠ n0 → alookup m (btInsert n0 rank ballot) = alookup m ballot) ∧
    (∀ m ∈ cands.map Prod.fst, (alookup m ballot).isNone = true → strLe n0 m) := by
  refine ⟨selectGo_registers kind ty rank hinput cands ballot n0 hfirst,
    alookup_btInsert_self n0 rank ballot,
    fun m hm => alookup_btInsert_ne n0 rank m hm ballot,
    firstAbsent_least cands ballot n0 hsorted hfirst⟩

/-- C5 counterexample: the claim says the numeric selection is validated
to the range 1–5.  The handler only parses the value; a selection payload
of "7" is accepted and recorded as rank 7 with no error. -/
theorem c5_range_validation_counterexample :
    selectGo (.stringSelect ["7"]) .SelectVote [] false [("a", "R")] =
      .ok ([("a", 7)], none) ∧
    ¬ (7 ≤ 5) := by
  exact ⟨by rfl, by decide⟩

/-- Witness for C5 (amended): with candidates `a < b`, a ballot that has
already answered `a`, and a selection of rank 3, exactly the entry for `b`
is added and the scan reports completion. -/
theorem c5_single_advance_witness :
    (firstAbsent [("a", "R"), ("b", "S")] [("a", 2)] = some "b") ∧
    (selectGo (.stringSelect ["3"]) .SelectVote [("a", 2)] false [("a", "R"), ("b", "S")] =
      .ok (btInsert "b" 3 [("a", 2)],
        firstAbsent [("a", "R"), ("b", "S")] (btInsert "b" 3 [("a", 2)]))) ∧
    alookup "b" (btInsert "b" 3 [("a", 2)]) = some 3 ∧
    (∀ m, m ≠ "b" → alookup m (btInsert "b" 3 [("a", 2)]) = alookup m [("a", 2)]) := by
  have h := c5_single_advance (.stringSelect ["3"]) .SelectVote 3
    [("a", "R"), ("b", "S")] [("a", 2)] "b"
    (Or.inl ⟨"3", [], rfl, by decide⟩) (by decide) (by decide)
  exact ⟨by decide, h.1, h.2.1, h.2.2.1⟩
